import Mathlib

/-!
Verification of the radfu host-side flash tool (Renesas RA bootloader client).

Shallow embedding of the C sources:
  * `src/rapacker.c`  — frame checksum, pack, unpack (`ra_calc_sum`,
    `ra_pack_pkt`, `ra_unpack_pkt`);
  * `src/radfu.c`     — `unpack_with_error`, `find_area_for_address`,
    `set_erase_boundaries`, `set_read_boundaries`, `set_write_boundaries`,
    the `ra_read` chunk loop, the `ra_verify` compare loop, and the
    pre-send logic of `ra_dlm_transit`;
  * `src/raconnect.c` — `ra_best_baudrate`;
  * `src/main.c`      — the `dlm-transit` CLI state-name parsing.

Machine integers are modelled as `Nat` with explicit `% 2^8`, `% 2^16` and
`% 2^32` truncation where the C types (`uint8_t`, `uint16_t`, `uint32_t`)
truncate.  Byte buffers are `List Nat`, each entry a byte value; reading a
byte applies `% 2^8` exactly as storage in a `uint8_t` array would.
Fallible C functions returning `-1` with an `errno` are modelled as
`Except`-valued functions over explicit error enumerations.
-/

namespace Radfu

/-! ### Protocol constants, from `src/rapacker.h` -/

def SOD_CMD : Nat := 0x01
def SOD_ACK : Nat := 0x81
def ETX : Nat := 0x03
def STATUS_ERR : Nat := 0x80
def MAX_DATA_LEN : Nat := 1024

/-- Read byte `i` of a buffer: C indexing into a `uint8_t` array. -/
def byteAt (buf : List Nat) (i : Nat) : Nat := buf.getD i 0 % 2 ^ 8

/-! ### `ra_calc_sum` (src/rapacker.c:52-64)

```c
uint8_t ra_calc_sum(uint8_t cmd, const uint8_t *data, size_t len) {
  uint16_t pkt_len = len + 1;
  uint8_t lnh = (pkt_len >> 8) & 0xFF;
  uint8_t lnl = pkt_len & 0xFF;
  uint32_t sum = lnh + lnl + cmd;
  for (size_t i = 0; i < len; i++) sum += data[i];
  return (~(sum - 1)) & 0xFF;   // two's complement
}
```
`cmd` and the data bytes are `uint8_t`, so the model truncates them on
entry.  `~(sum - 1)` on a `uint32_t` is `2^32 - 1 - ((sum - 1) mod 2^32)`,
where `sum - 1` wraps when `sum = 0`. -/
def ra_calc_sum (cmd : Nat) (data : List Nat) : Nat :=
  let pkt_len := (data.length + 1) % 2 ^ 16
  let lnh := pkt_len / 2 ^ 8 % 2 ^ 8
  let lnl := pkt_len % 2 ^ 8
  let sum := (lnh + lnl + cmd % 2 ^ 8 + (data.map (· % 2 ^ 8)).sum) % 2 ^ 32
  (2 ^ 32 - 1 - (sum + (2 ^ 32 - 1)) % 2 ^ 32) % 2 ^ 8

/-! ### `ra_pack_pkt` (src/rapacker.c:66-94) -/

/-- `errno` values `ra_pack_pkt` can set. -/
inductive PackErr where
  | einval
  | enobufs
deriving DecidableEq

/-- ```c
ssize_t ra_pack_pkt(uint8_t *buf, size_t buflen, uint8_t cmd,
                    const uint8_t *data, size_t len, bool ack) {
  if (len > MAX_DATA_LEN) { errno = EINVAL; return -1; }
  size_t pkt_len = len + 6;
  if (buflen < pkt_len) { errno = ENOBUFS; return -1; }
  uint16_t data_len = len + 1;
  uint8_t lnh = (data_len >> 8) & 0xFF;
  uint8_t lnl = data_len & 0xFF;
  uint8_t sum = ra_calc_sum(cmd, data, len);
  buf[0] = ack ? SOD_ACK : SOD_CMD;
  buf[1] = lnh; buf[2] = lnl; buf[3] = cmd;
  memcpy(&buf[4], data, len);
  buf[4 + len] = sum; buf[5 + len] = ETX;
  return (ssize_t)pkt_len;
}
```
On success the model returns the written frame (whose length is the C
return value `len + 6`).  Storing `cmd` and the data into the `uint8_t`
buffer truncates them to bytes. -/
def ra_pack_pkt (buflen : Nat) (cmd : Nat) (data : List Nat) (ack : Bool) :
    Except PackErr (List Nat) :=
  if data.length > MAX_DATA_LEN then .error .einval
  else if buflen < data.length + 6 then .error .enobufs
  else
    let data_len := (data.length + 1) % 2 ^ 16
    let lnh := data_len / 2 ^ 8 % 2 ^ 8
    let lnl := data_len % 2 ^ 8
    let sum := ra_calc_sum cmd data
    .ok ([if ack then SOD_ACK else SOD_CMD, lnh, lnl, cmd % 2 ^ 8] ++
          data.map (· % 2 ^ 8) ++ [sum, ETX])

/-! ### `ra_unpack_pkt` (src/rapacker.c:96-160) -/

/-- `errno` values `ra_unpack_pkt` can set. -/
inductive UnpackErr where
  | einval
  | eproto
  | eio
  | ebadmsg
deriving DecidableEq

/-- The observable outcome of `ra_unpack_pkt`: the return value together
with what was written through the three output pointers (`none` models an
out-parameter the function did not write). -/
structure UnpackOut where
  res : Except UnpackErr Nat
  dataOut : Option (List Nat)
  dataLenOut : Option Nat
  cmdOut : Option Nat

/-- ```c
ssize_t ra_unpack_pkt(const uint8_t *buf, size_t buflen, uint8_t *data,
                      size_t *data_len, uint8_t *cmd) {
  if (buflen < 6) { errno = EINVAL; return -1; }
  uint8_t sod = buf[0];
  if (sod != SOD_ACK) { errno = EPROTO; return -1; }
  uint8_t lnh = buf[1]; uint8_t lnl = buf[2]; uint8_t res = buf[3];
  uint16_t pkt_len = ((uint16_t)lnh << 8) | lnl;
  if (pkt_len < 1) { errno = EPROTO; return -1; }
  size_t dlen = pkt_len - 1;
  size_t total_len = 4 + dlen + 2;
  if (buflen < total_len) { errno = EINVAL; return -1; }
  if (res & STATUS_ERR) {
    if (dlen > 0 && data != NULL && data_len != NULL) {
      *data_len = dlen; memcpy(data, &buf[4], dlen);
    }
    errno = EIO; return -1;
  }
  uint8_t sum = buf[4 + dlen]; uint8_t etx = buf[5 + dlen];
  if (etx != ETX) { errno = EPROTO; return -1; }
  uint8_t calc = ra_calc_sum(res, &buf[4], dlen);
  if (sum != calc) { errno = EBADMSG; return -1; }
  if (data != NULL && dlen > 0) memcpy(data, &buf[4], dlen);
  if (data_len != NULL) *data_len = dlen;
  if (cmd != NULL) *cmd = res;
  return (ssize_t)dlen;
}
```
The model assumes all three out-pointers are non-NULL (as in every caller
of interest) and records which of them the function writes.  `(lnh << 8) |
lnl` equals `lnh * 2^8 + lnl` because `lnl < 2^8`. -/
def ra_unpack_pkt (buf : List Nat) : UnpackOut :=
  if buf.length < 6 then ⟨.error .einval, none, none, none⟩
  else if byteAt buf 0 ≠ SOD_ACK then ⟨.error .eproto, none, none, none⟩
  else
    let lnh := byteAt buf 1
    let lnl := byteAt buf 2
    let res := byteAt buf 3
    let pkt_len := lnh * 2 ^ 8 + lnl
    if pkt_len < 1 then ⟨.error .eproto, none, none, none⟩
    else
      let dlen := pkt_len - 1
      if buf.length < 4 + dlen + 2 then ⟨.error .einval, none, none, none⟩
      else if res &&& STATUS_ERR ≠ 0 then
        if 0 < dlen then
          ⟨.error .eio, some (((buf.drop 4).take dlen).map (· % 2 ^ 8)),
            some dlen, none⟩
        else ⟨.error .eio, none, none, none⟩
      else
        let sum := byteAt buf (4 + dlen)
        let etx := byteAt buf (5 + dlen)
        if etx ≠ ETX then ⟨.error .eproto, none, none, none⟩
        else if sum ≠ ra_calc_sum res ((buf.drop 4).take dlen) then
          ⟨.error .ebadmsg, none, none, none⟩
        else
          ⟨.ok dlen,
            if 0 < dlen then some (((buf.drop 4).take dlen).map (· % 2 ^ 8))
            else none,
            some dlen, some res⟩

/-- The byte layout of a response frame (`SOD = 0x81`) carrying command
byte `c`, payload `d` and checksum byte `s`, exactly as `ra_pack_pkt` lays
it out. -/
def mkFrame (c : Nat) (d : List Nat) (s : Nat) : List Nat :=
  [SOD_ACK, (d.length + 1) % 2 ^ 16 / 2 ^ 8 % 2 ^ 8, (d.length + 1) % 2 ^ 16 % 2 ^ 8, c] ++
    d ++ [s, ETX]

/-! ### `unpack_with_error` (src/radfu.c:50-80)

```c
static ssize_t unpack_with_error(const uint8_t *buf, size_t buflen,
    uint8_t *data, size_t *data_len, const char *context) {
  uint8_t cmd;                     // NOTE: never initialized
  size_t dlen = 0;
  ssize_t ret = ra_unpack_pkt(buf, buflen, data, &dlen, &cmd);
  if (data_len != NULL) *data_len = dlen;
  if (ret < 0) {
    if (cmd & STATUS_ERR) {
      uint8_t err_code = (dlen > 0 && data != NULL) ? data[0] : 0;
      warnx("%s: MCU error 0x%02X (%s: %s)", ...);
      ...
    } else {
      warnx("%s: unpack failed (cmd=0x%02X)", context, cmd);
    }
  }
  return ret;
}
``` -/

/-- What `unpack_with_error` prints on failure: either an MCU-error report
carrying the STS code read from the payload, or the generic unpack-failed
report carrying whatever the local `cmd` holds. -/
inductive UweReport where
  | mcuError (code : Nat)
  | unpackFailed (cmd : Nat)
deriving DecidableEq

/-- The local `cmd` of the C function is read even on paths where
`ra_unpack_pkt` never wrote it, so its indeterminate initial value is made
an explicit parameter `cmdInit`. -/
def unpack_with_error (buf : List Nat) (cmdInit : Nat) :
    Except UnpackErr Nat × Option UweReport :=
  let u := ra_unpack_pkt buf
  let cmd := u.cmdOut.getD cmdInit
  let dlen := u.dataLenOut.getD 0
  let dataBuf := u.dataOut.getD []
  match u.res with
  | .ok n => (.ok n, none)
  | .error e =>
    if cmd &&& STATUS_ERR ≠ 0 then
      (.error e, some (.mcuError (if 0 < dlen then byteAt dataBuf 0 else 0)))
    else
      (.error e, some (.unpackFailed cmd))

/-! ### Area map and boundary computations (src/radfu.c:86-266)

All the C arithmetic below is on `uint32_t`; the model writes each
potentially overflowing operation with an explicit `% U32`, and a C
subtraction `x - 1` as `(x + (U32 - 1)) % U32`. -/

def U32 : Nat := 2 ^ 32

def CHUNK_SIZE : Nat := 1024

/-- One slot of `ra_device_t.chip_layout` (`ra_area_t`, raconnect.h). -/
structure RaArea where
  koa : Nat
  sad : Nat
  ead : Nat
  eau : Nat
  wau : Nat
  rau : Nat
  cau : Nat
deriving DecidableEq, Inhabited

/-- ```c
STATIC int find_area_for_address(ra_device_t *dev, uint32_t addr) {
  for (int i = 0; i < MAX_AREAS; i++) {
    if (dev->chip_layout[i].sad == 0 && dev->chip_layout[i].ead == 0)
      continue;
    if (addr >= dev->chip_layout[i].sad && addr <= dev->chip_layout[i].ead)
      return i;
  }
  return -1;
}
```
The fixed `chip_layout[MAX_AREAS]` array is modelled as the list of its
slots, iterated in order with the running index. -/
def find_area_aux (layout : List RaArea) (addr : Nat) (i : Nat) : Option Nat :=
  match layout with
  | [] => none
  | a :: rest =>
    if a.sad = 0 ∧ a.ead = 0 then find_area_aux rest addr (i + 1)
    else if a.sad ≤ addr ∧ addr ≤ a.ead then some i
    else find_area_aux rest addr (i + 1)

def find_area_for_address (layout : List RaArea) (addr : Nat) : Option Nat :=
  find_area_aux layout addr 0

/-- `set_erase_boundaries` (src/radfu.c:132-172).  Returns the selected
area index and the inclusive end address, or `none` where the C returns
`-1`.  `blocks = (size + eau - 1) / eau`, `end = blocks * eau + start - 1`,
rejected when `end <= start`, or `end > ead`. -/
def set_erase_boundaries (layout : List RaArea) (start size : Nat) : Option (Nat × Nat) :=
  match find_area_for_address layout start with
  | none => none
  | some area =>
    let eau := (layout.getD area default).eau
    let ead := (layout.getD area default).ead
    if eau = 0 then none
    else if start % eau ≠ 0 then none
    else
      let blocks := (size + eau - 1) % U32 / eau
      let e := (blocks * eau + start + (U32 - 1)) % U32
      if e ≤ start then none
      else if ead < e then none
      else some (area, e)

/-- `set_read_boundaries` (src/radfu.c:177-224).  `end = start + size - 1`,
rejected when `end <= start && size > 1` or `end > ead`; then the end is
aligned up to the next RAU boundary, clamped to EAD. -/
def set_read_boundaries (layout : List RaArea) (start size : Nat) : Option (Nat × Nat) :=
  match find_area_for_address layout start with
  | none => none
  | some area =>
    let rau := (layout.getD area default).rau
    let ead := (layout.getD area default).ead
    if rau = 0 then none
    else if start % rau ≠ 0 then none
    else
      let e := (start + size + (U32 - 1)) % U32
      if e ≤ start ∧ 1 < size then none
      else if ead < e then none
      else
        let e2 :=
          if (e + 1) % U32 % rau ≠ 0 then
            let aligned := ((e / rau + 1) * rau % U32 + (U32 - 1)) % U32
            let aligned2 := if ead < aligned then ead else aligned
            if aligned2 ≠ e then aligned2 else e
          else e
        some (area, e2)

/-- `set_write_boundaries` (src/radfu.c:229-266); identical to the erase
computation with WAU in place of EAU. -/
def set_write_boundaries (layout : List RaArea) (start size : Nat) : Option (Nat × Nat) :=
  match find_area_for_address layout start with
  | none => none
  | some area =>
    let wau := (layout.getD area default).wau
    let ead := (layout.getD area default).ead
    if wau = 0 then none
    else if start % wau ≠ 0 then none
    else
      let blocks := (size + wau - 1) % U32 / wau
      let e := (blocks * wau + start + (U32 - 1)) % U32
      if e ≤ start then none
      else if ead < e then none
      else some (area, e)

/-! ### The `ra_read` chunk loop (src/radfu.c:861-941)

```c
uint32_t nr_chunks = (total_size + CHUNK_SIZE - 1) / CHUNK_SIZE;
uint32_t current_addr = start;
for (uint32_t i = 0; i < nr_chunks; i++) {
  uint32_t chunk_start = current_addr;
  uint32_t remaining = end - chunk_start + 1;
  uint32_t chunk_size = (remaining > CHUNK_SIZE) ? CHUNK_SIZE : remaining;
  uint32_t chunk_end = chunk_start + chunk_size - 1;
  ... send REA {chunk_start, chunk_end}, receive chunk ...
  memcpy(buffer + buffer_offset, chunk, chunk_len);
  buffer_offset += chunk_len;
  current_addr += chunk_size;
}
``` -/

/-- The `(chunk_start, chunk_end)` ranges requested by the for-loop, with
the iteration count as explicit fuel. -/
def read_chunk_loop : Nat → Nat → Nat → List (Nat × Nat)
  | 0, _, _ => []
  | n + 1, cur, e =>
    let remaining := e - cur + 1
    let chunk_size := if CHUNK_SIZE < remaining then CHUNK_SIZE else remaining
    (cur, cur + chunk_size - 1) :: read_chunk_loop n (cur + chunk_size) e

/-- The REA sub-ranges `ra_read` issues for the inclusive range
`[start, e]`: `nr_chunks = (total_size + CHUNK_SIZE - 1) / CHUNK_SIZE`,
the sum computed in 32-bit arithmetic. -/
def ra_read_chunks (start e : Nat) : List (Nat × Nat) :=
  read_chunk_loop ((e - start + 1 + (CHUNK_SIZE - 1)) % U32 / CHUNK_SIZE) start e

/-- The assembled output buffer: each chunk response is copied at the
running `buffer_offset`, i.e. appended after the previous responses. -/
def read_assemble (chunks : List (Nat × Nat)) (respond : Nat × Nat → List Nat) : List Nat :=
  match chunks with
  | [] => []
  | c :: rest => respond c ++ read_assemble rest respond

/-! ### The `ra_verify` compare loop (src/radfu.c:943-1064)

`flash` gives the device byte at each absolute address (the bytes the REA
responses deliver), `file` is `parsed.data`.  Each response is assumed to
carry exactly the `chunk_end - chunk_start + 1` requested bytes
(`chunk_len = chunk_size`). -/

inductive VerifyResult where
  | ok
  | mismatch (addr flashVal fileVal : Nat)
  | notBlank (addr flashVal : Nat)
deriving DecidableEq

/-- The first compare loop of a chunk:
```c
for (size_t j = 0; j < cmp_len; j++)
  if (flash_chunk[j] != parsed.data[file_offset + j]) { ...FAILED...; return -1; }
``` -/
def verify_cmp (flash : Nat → Nat) (file : List Nat) :
    Nat → Nat → Nat → Option (Nat × Nat × Nat)
  | _, _, 0 => none
  | addr, fo, j + 1 =>
    if flash addr ≠ file.getD fo 0 then some (addr, flash addr, file.getD fo 0)
    else verify_cmp flash file (addr + 1) (fo + 1) j

/-- The second compare loop of a chunk:
```c
for (size_t j = cmp_len; j < chunk_len; j++)
  if (flash_chunk[j] != 0xFF) { ...FAILED...; return -1; }
``` -/
def verify_blank (flash : Nat → Nat) : Nat → Nat → Option (Nat × Nat)
  | _, 0 => none
  | addr, j + 1 =>
    if flash addr ≠ 0xFF then some (addr, flash addr)
    else verify_blank flash (addr + 1) j

/-- The chunked verify loop, fuel = `nr_chunks`. -/
def verify_loop (flash : Nat → Nat) (file : List Nat) (e : Nat) :
    Nat → Nat → Nat → VerifyResult
  | 0, _, _ => .ok
  | n + 1, cur, fo =>
    let remaining_flash := e - cur + 1
    let chunk_size := if CHUNK_SIZE < remaining_flash then CHUNK_SIZE else remaining_flash
    let remaining_file := file.length - fo
    let cmp_len := if remaining_file < chunk_size then remaining_file else chunk_size
    match verify_cmp flash file cur fo cmp_len with
    | some (a, fv, pv) => .mismatch a fv pv
    | none =>
      if cmp_len < chunk_size then
        match verify_blank flash (cur + cmp_len) (chunk_size - cmp_len) with
        | some (a, fv) => .notBlank a fv
        | none => verify_loop flash file e n (cur + chunk_size) (fo + cmp_len)
      else verify_loop flash file e n (cur + chunk_size) (fo + cmp_len)

/-- The comparison `ra_verify` performs over the range `[start, e]` after
its boundary computation: chunked reads, first-mismatch reporting. -/
def ra_verify_cmp (flash : Nat → Nat) (file : List Nat) (start e : Nat) : VerifyResult :=
  verify_loop flash file e ((e - start + 1 + (CHUNK_SIZE - 1)) % U32 / CHUNK_SIZE) start 0

/-- Byte-at-a-time reference scan over offsets `o, o+1, ...` (`n` bytes
left): compare against the file while it lasts, then require `0xFF`.
Proof device used to characterise `ra_verify_cmp`. -/
def verify_scan (flash : Nat → Nat) (file : List Nat) (start : Nat) :
    Nat → Nat → VerifyResult
  | _, 0 => .ok
  | o, n + 1 =>
    if o < file.length then
      if flash (start + o) ≠ file.getD o 0 then
        .mismatch (start + o) (flash (start + o)) (file.getD o 0)
      else verify_scan flash file start (o + 1) n
    else if flash (start + o) ≠ 0xFF then .notBlank (start + o) (flash (start + o))
    else verify_scan flash file start (o + 1) n

/-- Offset `k` of the verified range violates the verify contract: it
differs from the file byte while the file lasts, and from `0xFF` beyond
the file's end. -/
def scanViol (flash : Nat → Nat) (file : List Nat) (start k : Nat) : Prop :=
  if k < file.length then flash (start + k) ≠ file.getD k 0
  else flash (start + k) ≠ 0xFF

instance (flash : Nat → Nat) (file : List Nat) (start k : Nat) :
    Decidable (scanViol flash file start k) := by
  unfold scanViol
  infer_instance

/-! ### DLM transit (src/radfu.c:1448-1529, src/main.c:631-647) -/

def DLM_STATE_CM : Nat := 0x01
def DLM_STATE_SSD : Nat := 0x02
def DLM_STATE_NSECSD : Nat := 0x03
def DLM_STATE_DPL : Nat := 0x04
def DLM_STATE_LCK_DBG : Nat := 0x05
def DLM_STATE_LCK_BOOT : Nat := 0x06
def DLM_STATE_RMA_REQ : Nat := 0x07
def DLM_STATE_RMA_ACK : Nat := 0x08

/-- What `ra_dlm_transit` does between reading the current DLM state and
contacting the device. -/
inductive DlmTransitAction where
  | alreadyInTarget
  | send (sdlm ddlm : Nat)
deriving DecidableEq

/-- The only host-side branching in `ra_dlm_transit` before the
`DLM_TRANSIT` frame goes out: `if (current_dlm == dest_dlm) return 0;`
then (after a warning for LCK_BOOT that gates nothing) the request is
packed with `data[0] = current_dlm; data[1] = dest_dlm;` and sent. -/
def ra_dlm_transit_action (current_dlm dest_dlm : Nat) : DlmTransitAction :=
  if current_dlm = dest_dlm then .alreadyInTarget
  else .send current_dlm dest_dlm

/-- The `dlm-transit` argument parsing of main.c: `strcasecmp` against the
five accepted state names (case-insensitive), `errx` otherwise. -/
def cli_dlm_transit_state (s : String) : Option Nat :=
  if s.toLower = "ssd" then some DLM_STATE_SSD
  else if s.toLower = "nsecsd" then some DLM_STATE_NSECSD
  else if s.toLower = "dpl" then some DLM_STATE_DPL
  else if s.toLower = "lck_dbg" then some DLM_STATE_LCK_DBG
  else if s.toLower = "lck_boot" then some DLM_STATE_LCK_BOOT
  else none

/-- Modelled from the spec (radfu.h:165-170 documents the same table):
the allowed unauthenticated DLM transitions `CM→SSD`, `SSD→{NSECSD,DPL}`,
`NSECSD→DPL`, `DPL→{LCK_DBG,LCK_BOOT}`, `LCK_DBG→LCK_BOOT`.  Used only to
compare the claimed host-side re-check against what the code does. -/
def spec_allowed_dlm_transition (cur dest : Nat) : Bool :=
  (cur == DLM_STATE_CM && dest == DLM_STATE_SSD) ||
  (cur == DLM_STATE_SSD && (dest == DLM_STATE_NSECSD || dest == DLM_STATE_DPL)) ||
  (cur == DLM_STATE_NSECSD && dest == DLM_STATE_DPL) ||
  (cur == DLM_STATE_DPL && (dest == DLM_STATE_LCK_DBG || dest == DLM_STATE_LCK_BOOT)) ||
  (cur == DLM_STATE_LCK_DBG && dest == DLM_STATE_LCK_BOOT)

/-! ### `ra_best_baudrate` (src/raconnect.c:401-456)

The descending rate table with every optional `B*` constant available (as
on Linux, where termios defines all of them). -/

def baud_rates : List Nat :=
  [4000000, 3500000, 3000000, 2500000, 2000000, 1500000, 1152000, 1000000,
   921600, 576000, 500000, 460800, 230400, 115200, 57600, 38400, 19200, 9600]

/-- ```c
for (size_t i = 0; i < sizeof(rates)/sizeof(rates[0]); i++)
  if (rates[i] <= max) return rates[i];
return 9600;
``` -/
def ra_best_baudrate (max : Nat) : Nat :=
  match baud_rates.find? (fun r => decide (r ≤ max)) with
  | some r => r
  | none => 9600

/-- The chip layout the repository's unit tests install
(`tests/test_radfu.c`, `setup_test_device`): code flash, data flash, a
config area without erase support, and the all-zero sentinel slot. -/
def testLayout : List RaArea :=
  [⟨0, 0, 0x7FFFF, 0x2000, 0x80, 4, 4⟩,
   ⟨0x10, 0x08000000, 0x08001FFF, 0x40, 4, 4, 4⟩,
   ⟨0x20, 0x01000000, 0x010001FF, 0, 4, 4, 4⟩,
   ⟨0, 0, 0, 0, 0, 0, 0⟩]

/-- What it means for slot `k` of the layout to be passed over by
`find_area_for_address`: it is the empty-slot sentinel or does not contain
the address. -/
def slotSkipped (layout : List RaArea) (addr k : Nat) : Prop :=
  ((layout.getD k default).sad = 0 ∧ (layout.getD k default).ead = 0) ∨
    ¬((layout.getD k default).sad ≤ addr ∧ addr ≤ (layout.getD k default).ead)

/-! ### Checksum arithmetic -/

theorem ra_calc_sum_lt (cmd : Nat) (data : List Nat) :
    ra_calc_sum cmd data < 2 ^ 8 := by
  unfold ra_calc_sum
  exact Nat.mod_lt _ (by norm_num)

/-- The two's-complement property: the checksum cancels the 8-bit sum of
LNH, LNL, the command byte and the data bytes. -/
theorem ra_calc_sum_cancel (cmd : Nat) (data : List Nat) :
    ((data.length + 1) % 2 ^ 16 / 2 ^ 8 % 2 ^ 8 + (data.length + 1) % 2 ^ 16 % 2 ^ 8 +
        cmd % 2 ^ 8 + (data.map (· % 2 ^ 8)).sum + ra_calc_sum cmd data) % 2 ^ 8 = 0 := by
  simp only [ra_calc_sum]
  generalize ((data.length + 1) % 2 ^ 16 / 2 ^ 8 % 2 ^ 8 + (data.length + 1) % 2 ^ 16 % 2 ^ 8 +
      cmd % 2 ^ 8 + (data.map (· % 2 ^ 8)).sum) = T
  omega

/-! ### Frame shape lemmas -/

theorem mkFrame_length (c : Nat) (d : List Nat) (s : Nat) :
    (mkFrame c d s).length = d.length + 6 := by
  simp [mkFrame]

theorem pack_ack_eq (buflen cmd : Nat) (data : List Nat)
    (h1 : data.length ≤ MAX_DATA_LEN) (h2 : data.length + 6 ≤ buflen) :
    ra_pack_pkt buflen cmd data true =
      .ok (mkFrame (cmd % 2 ^ 8) (data.map (· % 2 ^ 8)) (ra_calc_sum cmd data)) := by
  simp [ra_pack_pkt, mkFrame, Nat.not_lt.mpr h2, Nat.not_lt.mpr h1]

theorem map_mod_eq_self {d : List Nat} (hd : ∀ b ∈ d, b < 2 ^ 8) :
    d.map (· % 2 ^ 8) = d := by
  exact (List.map_congr_left fun b hb => Nat.mod_eq_of_lt (hd b hb)).trans (List.map_id d)

/-- Running `ra_unpack_pkt` over a well-formed response frame. -/
theorem unpack_mkFrame (c : Nat) (d : List Nat) (s : Nat)
    (hc : c < 2 ^ 8) (herr : c &&& STATUS_ERR = 0) (hd : ∀ b ∈ d, b < 2 ^ 8)
    (hlen : d.length ≤ MAX_DATA_LEN) (hs : s = ra_calc_sum c d) :
    ra_unpack_pkt (mkFrame c d s) =
      ⟨.ok d.length, if 0 < d.length then some d else none, some d.length, some c⟩ := by
  have hmax : MAX_DATA_LEN = 1024 := rfl
  have hl16 : (d.length + 1) % 2 ^ 16 = d.length + 1 := Nat.mod_eq_of_lt (by omega)
  have hslt : s < 2 ^ 8 := hs ▸ ra_calc_sum_lt c d
  have hdecomp : mkFrame c d s =
      [SOD_ACK, (d.length + 1) % 2 ^ 16 / 2 ^ 8 % 2 ^ 8, (d.length + 1) % 2 ^ 16 % 2 ^ 8, c] ++
        (d ++ [s, ETX]) := by
    simp [mkFrame]
  have h0 : byteAt (mkFrame c d s) 0 = SOD_ACK := by simp [mkFrame, byteAt, SOD_ACK]
  have h1 : byteAt (mkFrame c d s) 1 = (d.length + 1) / 2 ^ 8 := by
    simp [mkFrame, byteAt, hl16]
    omega
  have h2 : byteAt (mkFrame c d s) 2 = (d.length + 1) % 2 ^ 8 := by
    simp [mkFrame, byteAt, hl16]
    omega
  have h3 : byteAt (mkFrame c d s) 3 = c := by
    simp [mkFrame, byteAt]
    omega
  have e1 : ([SOD_ACK, (d.length + 1) % 2 ^ 16 / 2 ^ 8 % 2 ^ 8,
      (d.length + 1) % 2 ^ 16 % 2 ^ 8, c] : List Nat).length = 4 := rfl
  have hdrop : (mkFrame c d s).drop 4 = d ++ [s, ETX] := by
    rw [hdecomp]
    exact List.drop_left' e1
  have htake : ((mkFrame c d s).drop 4).take d.length = d := by
    rw [hdrop]
    exact List.take_left d [s, ETX]
  have h4 : byteAt (mkFrame c d s) (4 + d.length) = s := by
    unfold byteAt
    rw [hdecomp, List.getD_append_right _ _ _ _ (by rw [e1]; omega), e1]
    have e2 : 4 + d.length - 4 = d.length := by omega
    rw [e2, List.getD_append_right _ _ _ _ (le_refl _), Nat.sub_self]
    simp only [List.getD_cons_zero]
    omega
  have h5 : byteAt (mkFrame c d s) (5 + d.length) = ETX := by
    unfold byteAt
    rw [hdecomp, List.getD_append_right _ _ _ _ (by rw [e1]; omega), e1]
    have e2 : 5 + d.length - 4 = d.length + 1 := by omega
    rw [e2, List.getD_append_right _ _ _ _ (by omega), Nat.add_sub_cancel_left]
    simp [ETX]
  have hpkt : (d.length + 1) / 2 ^ 8 * 2 ^ 8 + (d.length + 1) % 2 ^ 8 = d.length + 1 := by
    omega
  simp only [ra_unpack_pkt, mkFrame_length, h0, h1, h2, h3, hpkt, Nat.add_sub_cancel,
    h4, h5, htake]
  rw [if_neg (by omega), if_neg (by simp), if_neg (by omega), if_neg (by omega),
    if_neg (by simp [herr]), if_neg (by simp), if_neg (by simp [hs]), map_mod_eq_self hd]

/-- Everything a successful `ra_unpack_pkt` run tells us about the buffer. -/
theorem unpack_ok_elim {buf : List Nat} {dlen : Nat}
    (h : (ra_unpack_pkt buf).res = .ok dlen) :
    byteAt buf 0 = SOD_ACK ∧
    byteAt buf 1 * 2 ^ 8 + byteAt buf 2 = dlen + 1 ∧
    4 + dlen + 2 ≤ buf.length ∧
    byteAt buf 3 &&& STATUS_ERR = 0 ∧
    byteAt buf (5 + dlen) = ETX ∧
    byteAt buf (4 + dlen) = ra_calc_sum (byteAt buf 3) ((buf.drop 4).take dlen) ∧
    (ra_unpack_pkt buf).cmdOut = some (byteAt buf 3) ∧
    (ra_unpack_pkt buf).dataLenOut = some dlen ∧
    (ra_unpack_pkt buf).dataOut =
      (if 0 < dlen then some (((buf.drop 4).take dlen).map (· % 2 ^ 8)) else none) := by
  simp only [ra_unpack_pkt] at h
  by_cases w1 : buf.length < 6
  · rw [if_pos w1] at h; exact absurd h (by simp)
  rw [if_neg w1] at h
  by_cases w2 : byteAt buf 0 ≠ SOD_ACK
  · rw [if_pos w2] at h; exact absurd h (by simp)
  rw [if_neg w2] at h
  by_cases w3 : byteAt buf 1 * 2 ^ 8 + byteAt buf 2 < 1
  · rw [if_pos w3] at h; exact absurd h (by simp)
  rw [if_neg w3] at h
  by_cases w4 : buf.length < 4 + (byteAt buf 1 * 2 ^ 8 + byteAt buf 2 - 1) + 2
  · rw [if_pos w4] at h; exact absurd h (by simp)
  rw [if_neg w4] at h
  by_cases w5 : byteAt buf 3 &&& STATUS_ERR ≠ 0
  · rw [if_pos w5] at h
    split at h <;> simp at h
  rw [if_neg w5] at h
  by_cases w6 : byteAt buf (5 + (byteAt buf 1 * 2 ^ 8 + byteAt buf 2 - 1)) ≠ ETX
  · rw [if_pos w6] at h; exact absurd h (by simp)
  rw [if_neg w6] at h
  by_cases w7 : byteAt buf (4 + (byteAt buf 1 * 2 ^ 8 + byteAt buf 2 - 1)) ≠
      ra_calc_sum (byteAt buf 3) ((buf.drop 4).take (byteAt buf 1 * 2 ^ 8 + byteAt buf 2 - 1))
  · rw [if_pos w7] at h; exact absurd h (by simp)
  rw [if_neg w7] at h
  have hdd : byteAt buf 1 * 2 ^ 8 + byteAt buf 2 - 1 = dlen := by simpa using h
  have hout : ra_unpack_pkt buf =
      ⟨.ok (byteAt buf 1 * 2 ^ 8 + byteAt buf 2 - 1),
        if 0 < byteAt buf 1 * 2 ^ 8 + byteAt buf 2 - 1 then
          some (((buf.drop 4).take (byteAt buf 1 * 2 ^ 8 + byteAt buf 2 - 1)).map (· % 2 ^ 8))
        else none,
        some (byteAt buf 1 * 2 ^ 8 + byteAt buf 2 - 1), some (byteAt buf 3)⟩ := by
    simp only [ra_unpack_pkt]
    rw [if_neg w1, if_neg w2, if_neg w3, if_neg w4, if_neg w5, if_neg w6, if_neg w7]
  subst hdd
  push_neg at w2 w3 w4 w5 w6 w7
  exact ⟨w2, by omega, by omega, w5, w6, w7, by rw [hout], by rw [hout], by rw [hout]⟩

theorem exists_head4 (buf : List Nat) (h : 4 ≤ buf.length) :
    ∃ b0 b1 b2 b3 rest, buf = b0 :: b1 :: b2 :: b3 :: rest := by
  match buf with
  | b0 :: b1 :: b2 :: b3 :: rest => exact ⟨b0, b1, b2, b3, rest, rfl⟩
  | [] | [_] | [_, _] | [_, _, _] => simp at h

theorem exists_pair (l : List Nat) (h : l.length = 2) : ∃ x y, l = [x, y] := by
  match l with
  | [x, y] => exact ⟨x, y, rfl⟩
  | [] | [_] => simp at h
  | _ :: _ :: _ :: _ => simp at h

theorem shape_byteAt_sum (b0 b1 b2 b3 x y n : Nat) (mid : List Nat) (hm : mid.length = n) :
    byteAt ([b0, b1, b2, b3] ++ (mid ++ [x, y])) (4 + n) = x % 2 ^ 8 := by
  unfold byteAt
  rw [List.getD_append_right _ _ _ _ (by simp)]
  simp only [List.length_cons, List.length_nil]
  have e2 : 4 + n - (0 + 1 + 1 + 1 + 1) = n := by omega
  rw [e2, List.getD_append_right _ _ _ _ (by omega), hm, Nat.sub_self]
  simp

theorem shape_byteAt_etx (b0 b1 b2 b3 x y n : Nat) (mid : List Nat) (hm : mid.length = n) :
    byteAt ([b0, b1, b2, b3] ++ (mid ++ [x, y])) (5 + n) = y % 2 ^ 8 := by
  unfold byteAt
  rw [List.getD_append_right _ _ _ _ (by simp only [List.length_cons, List.length_nil]; omega)]
  simp only [List.length_cons, List.length_nil]
  have e2 : 5 + n - (0 + 1 + 1 + 1 + 1) = n + 1 := by omega
  rw [e2, List.getD_append_right _ _ _ _ (by omega), hm, Nat.add_sub_cancel_left]
  simp

theorem shape_take (b0 b1 b2 b3 x y n : Nat) (mid : List Nat) (hm : mid.length = n) :
    ((([b0, b1, b2, b3] ++ (mid ++ [x, y])).drop 4).take n) = mid := by
  rw [List.drop_left' (by simp), ← hm]
  exact List.take_left mid [x, y]

/-- `pack` after `unpack` is the identity on well-formed response frames: a
buffer of bytes which `ra_unpack_pkt` accepts, whose length is exactly the
framed length `dlen + 6`, and whose payload fits the protocol maximum,
is reproduced byte for byte by `ra_pack_pkt` from the unpacked fields. -/
theorem pack_after_unpack (buf : List Nat) (dlen : Nat)
    (hbytes : ∀ b ∈ buf, b < 2 ^ 8)
    (hok : (ra_unpack_pkt buf).res = .ok dlen)
    (hlen : buf.length = dlen + 6)
    (hdmax : dlen ≤ MAX_DATA_LEN) :
    ra_pack_pkt buf.length (byteAt buf 3) ((buf.drop 4).take dlen) true = .ok buf := by
  obtain ⟨hsod, hhdr, htot, herr, hetx, hsum, -, -, -⟩ := unpack_ok_elim hok
  obtain ⟨b0, b1, b2, b3, rest, rfl⟩ := exists_head4 buf (by omega)
  have hrlen : rest.length = dlen + 2 := by
    simpa using hlen
  obtain ⟨x, y, hxy⟩ := exists_pair (rest.drop dlen) (by simp [hrlen])
  have hshape : b0 :: b1 :: b2 :: b3 :: rest =
      [b0, b1, b2, b3] ++ (rest.take dlen ++ [x, y]) := by
    conv_lhs => rw [← List.take_append_drop dlen rest, hxy]
    rfl
  have hmid : (rest.take dlen).length = dlen := by simp [hrlen]
  rw [hshape] at hbytes hsod hhdr herr hetx hsum ⊢
  set mid := rest.take dlen with hmiddef
  have hb0 : b0 < 2 ^ 8 := hbytes b0 (by simp)
  have hb1 : b1 < 2 ^ 8 := hbytes b1 (by simp)
  have hb2 : b2 < 2 ^ 8 := hbytes b2 (by simp)
  have hb3 : b3 < 2 ^ 8 := hbytes b3 (by simp)
  have hx : x < 2 ^ 8 := hbytes x (by simp)
  have hy : y < 2 ^ 8 := hbytes y (by simp)
  have hmidb : ∀ b ∈ mid, b < 2 ^ 8 := fun b hb => hbytes b (by simp [hb])
  have hA0 : byteAt ([b0, b1, b2, b3] ++ (mid ++ [x, y])) 0 = b0 := by
    simp [byteAt]
    omega
  have hA1 : byteAt ([b0, b1, b2, b3] ++ (mid ++ [x, y])) 1 = b1 := by
    simp [byteAt]
    omega
  have hA2 : byteAt ([b0, b1, b2, b3] ++ (mid ++ [x, y])) 2 = b2 := by
    simp [byteAt]
    omega
  have hA3 : byteAt ([b0, b1, b2, b3] ++ (mid ++ [x, y])) 3 = b3 := by
    simp [byteAt]
    omega
  rw [hA3]
  rw [shape_take b0 b1 b2 b3 x y dlen mid hmid]
  rw [pack_ack_eq _ _ _ (by rw [hmid]; exact hdmax)
    (by simp only [List.length_append, List.length_cons, List.length_nil]; omega)]
  rw [hA0] at hsod
  rw [hA1, hA2] at hhdr
  rw [hA3] at herr hsum
  rw [shape_byteAt_etx b0 b1 b2 b3 x y dlen mid hmid] at hetx
  rw [shape_byteAt_sum b0 b1 b2 b3 x y dlen mid hmid] at hsum
  rw [shape_take b0 b1 b2 b3 x y dlen mid hmid] at hsum
  have hxv : x = ra_calc_sum b3 mid := by rw [← hsum, Nat.mod_eq_of_lt hx]
  have hyv : y = ETX := by
    have : ETX = 3 := rfl
    omega
  have hcm : b3 % 2 ^ 8 = b3 := Nat.mod_eq_of_lt hb3
  have hmapm : mid.map (· % 2 ^ 8) = mid := map_mod_eq_self hmidb
  rw [hcm, hmapm]
  unfold mkFrame
  have hl16 : (mid.length + 1) % 2 ^ 16 = dlen + 1 := by
    rw [hmid]
    exact Nat.mod_eq_of_lt (by unfold MAX_DATA_LEN at hdmax; omega)
  have hL1 : (mid.length + 1) % 2 ^ 16 / 2 ^ 8 % 2 ^ 8 = b1 := by
    rw [hl16]
    omega
  have hL2 : (mid.length + 1) % 2 ^ 16 % 2 ^ 8 = b2 := by
    rw [hl16]
    omega
  rw [hL1, hL2, ← hxv, ← hyv, hsod, List.append_assoc]

/-! ### Sanity checks: the embedding evaluated on the repository's own
unit-test vectors (`tests/test_rapacker.c`, `tests/test_radfu.c`). -/

example : ra_pack_pkt 6 0 [] false = .ok [1, 0, 1, 0, 0xFF, 3] := by rfl

example :
    (ra_unpack_pkt [0x81, 0x00, 0x02, 0x00, 0x00, 0xFE, 0x03]).res = .ok 1 := by rfl

example :
    (ra_unpack_pkt [0x81, 0x00, 0x04, 0x15, 0xAA, 0xBB, 0xCC, 0xB6, 0x03]).res =
      .ok 3 := by rfl

example : find_area_for_address testLayout 0x7FFFF = some 0 := by decide
example : find_area_for_address testLayout 0x80000 = none := by decide
example : find_area_for_address testLayout 0x08000000 = some 1 := by decide
example : set_erase_boundaries testLayout 0 0x2000 = some (0, 0x1FFF) := by decide
example : set_erase_boundaries testLayout 0 0x10000 = some (0, 0xFFFF) := by decide
example : set_erase_boundaries testLayout 0x100 0x2000 = none := by decide
example : set_erase_boundaries testLayout 0x01000000 0x100 = none := by decide
example : set_write_boundaries testLayout 0 0x80 = some (0, 0x7F) := by decide
example : set_write_boundaries testLayout 1 0x80 = none := by decide
example : set_read_boundaries testLayout 0 0x100 = some (0, 0xFF) := by decide
example : set_read_boundaries testLayout 1 0x100 = none := by decide
example : set_read_boundaries testLayout 4 0 = some (0, 3) := by decide
example : set_read_boundaries testLayout 0 5 = some (0, 7) := by decide
example : ra_read_chunks 0 2999 = [(0, 1023), (1024, 2047), (2048, 2999)] := by decide
example : ra_best_baudrate 1000000 = 1000000 := by decide
example : ra_best_baudrate 9599 = 9600 := by decide
example : ra_best_baudrate 115300 = 115200 := by decide
example : ra_best_baudrate 999999 = 921600 := by decide

/-! ### Sorted-table search -/

theorem find_le_greatest {l : List Nat} {m r : Nat} (hsort : l.Pairwise (· ≥ ·))
    (hfind : l.find? (fun x => decide (x ≤ m)) = some r) :
    r ≤ m ∧ ∀ x ∈ l, x ≤ m → x ≤ r := by
  induction l with
  | nil => simp at hfind
  | cons a t ih =>
    rw [List.find?_cons] at hfind
    rcases List.pairwise_cons.1 hsort with ⟨hha, htl⟩
    by_cases ha : a ≤ m
    · simp [ha] at hfind
      subst hfind
      refine ⟨ha, ?_⟩
      intro x hx _
      rcases List.mem_cons.1 hx with rfl | hx
      · exact le_refl x
      · exact hha x hx
    · simp [ha] at hfind
      obtain ⟨hr, hgr⟩ := ih htl hfind
      refine ⟨hr, ?_⟩
      intro x hx hxm
      rcases List.mem_cons.1 hx with rfl | hx
      · exact absurd hxm ha
      · exact hgr x hx hxm

/-! ### `find_area_aux` characterisation -/

theorem find_area_aux_spec (layout : List RaArea) (addr : Nat) : ∀ i : Nat,
    (∀ j, find_area_aux layout addr i = some j →
      i ≤ j ∧ j - i < layout.length ∧
      ¬((layout.getD (j - i) default).sad = 0 ∧ (layout.getD (j - i) default).ead = 0) ∧
      (layout.getD (j - i) default).sad ≤ addr ∧ addr ≤ (layout.getD (j - i) default).ead ∧
      ∀ k < j - i, slotSkipped layout addr k) ∧
    (find_area_aux layout addr i = none →
      ∀ k < layout.length, slotSkipped layout addr k) := by
  induction layout with
  | nil =>
    intro i
    constructor
    · intro j hj
      simp [find_area_aux] at hj
    · intro _ k hk
      simp at hk
  | cons a t ih =>
    intro i
    constructor
    · intro j hj
      unfold find_area_aux at hj
      by_cases hsent : a.sad = 0 ∧ a.ead = 0
      · rw [if_pos hsent] at hj
        obtain ⟨hij, hlt, hns, hs1, hs2, hmin⟩ := (ih (i + 1)).1 j hj
        have hji : j - i = (j - (i + 1)) + 1 := by omega
        refine ⟨by omega, by simp; omega, ?_, ?_, ?_, ?_⟩
        · rw [hji]; simpa using hns
        · rw [hji]; simpa using hs1
        · rw [hji]; simpa using hs2
        · intro k hk
          match k with
          | 0 => exact Or.inl (by simpa [slotSkipped] using hsent)
          | k' + 1 =>
            have := hmin k' (by omega)
            simpa [slotSkipped] using this
      · rw [if_neg hsent] at hj
        by_cases hcont : a.sad ≤ addr ∧ addr ≤ a.ead
        · rw [if_pos hcont] at hj
          have hji : j = i := by simpa using hj.symm
          subst hji
          refine ⟨le_refl _, by simp, ?_, ?_, ?_, ?_⟩
          · simpa [Nat.sub_self] using hsent
          · simpa [Nat.sub_self] using hcont.1
          · simpa [Nat.sub_self] using hcont.2
          · intro k hk
            omega
        · rw [if_neg hcont] at hj
          obtain ⟨hij, hlt, hns, hs1, hs2, hmin⟩ := (ih (i + 1)).1 j hj
          have hji : j - i = (j - (i + 1)) + 1 := by omega
          refine ⟨by omega, by simp; omega, ?_, ?_, ?_, ?_⟩
          · rw [hji]; simpa using hns
          · rw [hji]; simpa using hs1
          · rw [hji]; simpa using hs2
          · intro k hk
            match k with
            | 0 => exact Or.inr (by simpa [slotSkipped] using hcont)
            | k' + 1 =>
              have := hmin k' (by omega)
              simpa [slotSkipped] using this
    · intro hj k hk
      unfold find_area_aux at hj
      by_cases hsent : a.sad = 0 ∧ a.ead = 0
      · rw [if_pos hsent] at hj
        have hrec := (ih (i + 1)).2 hj
        match k with
        | 0 => exact Or.inl (by simpa [slotSkipped] using hsent)
        | k' + 1 =>
          have := hrec k' (by simpa using hk)
          simpa [slotSkipped] using this
      · rw [if_neg hsent] at hj
        by_cases hcont : a.sad ≤ addr ∧ addr ≤ a.ead
        · rw [if_pos hcont] at hj
          simp at hj
        · rw [if_neg hcont] at hj
          have hrec := (ih (i + 1)).2 hj
          match k with
          | 0 => exact Or.inr (by simpa [slotSkipped] using hcont)
          | k' + 1 =>
            have := hrec k' (by simpa using hk)
            simpa [slotSkipped] using this

/-! ### Claim theorems -/

/-- C10: `find_area_for_address` skips every slot whose SAD and EAD are
both zero (the empty-slot sentinel) and returns the lowest-indexed
remaining area whose inclusive `[SAD, EAD]` range contains the address,
or not-found when no such area exists; consequently an address never
resolves to a descriptor with `SAD = EAD = 0`. -/
theorem c10_find_area (layout : List RaArea) (addr : Nat) :
    (∀ j, find_area_for_address layout addr = some j →
      j < layout.length ∧
      ¬((layout.getD j default).sad = 0 ∧ (layout.getD j default).ead = 0) ∧
      (layout.getD j default).sad ≤ addr ∧ addr ≤ (layout.getD j default).ead ∧
      ∀ k < j, slotSkipped layout addr k) ∧
    (find_area_for_address layout addr = none →
      ∀ k < layout.length, slotSkipped layout addr k) := by
  have h := find_area_aux_spec layout addr 0
  unfold find_area_for_address
  constructor
  · intro j hj
    obtain ⟨-, hlt, hns, hs1, hs2, hmin⟩ := h.1 j hj
    rw [Nat.sub_zero] at hlt hns hs1 hs2
    refine ⟨hlt, hns, hs1, hs2, ?_⟩
    intro k hk
    exact hmin k (by omega)
  · exact h.2

/-- C10 witness: on the test layout, address `0x08000000` resolves to
slot 1 with all the guarantees; and a layout whose single slot genuinely
describes a one-byte area at address 0 (`SAD = EAD = 0`) is treated as
empty, so the address cannot resolve to it. -/
theorem c10_find_area_witness :
    (1 < testLayout.length ∧
      ¬((testLayout.getD 1 default).sad = 0 ∧ (testLayout.getD 1 default).ead = 0) ∧
      (testLayout.getD 1 default).sad ≤ 0x08000000 ∧
      0x08000000 ≤ (testLayout.getD 1 default).ead ∧
      ∀ k < 1, slotSkipped testLayout 0x08000000 k) ∧
    find_area_for_address [⟨0, 0, 0, 0x2000, 4, 4, 4⟩] 0 = none :=
  ⟨(c10_find_area testLayout 0x08000000).1 1 (by decide), by decide⟩

/-- C9: `ra_best_baudrate max` returns the greatest rate of the supported
table that is `≤ max`, and returns 9600 whenever no supported rate is
`≤ max`; the result is always a table entry and never below 9600. -/
theorem c9_best_baudrate (max : Nat) :
    ra_best_baudrate max ∈ baud_rates ∧
    9600 ≤ ra_best_baudrate max ∧
    (9600 ≤ max →
      ra_best_baudrate max ≤ max ∧
      ∀ r ∈ baud_rates, r ≤ max → r ≤ ra_best_baudrate max) ∧
    (max < 9600 → ra_best_baudrate max = 9600) := by
  have hsort : baud_rates.Pairwise (· ≥ ·) := by decide
  have hfloor : ∀ x ∈ baud_rates, 9600 ≤ x := by decide
  have h96 : (9600 : Nat) ∈ baud_rates := by decide
  unfold ra_best_baudrate
  cases hfind : baud_rates.find? (fun r => decide (r ≤ max)) with
  | none =>
    have hall := List.find?_eq_none.1 hfind
    refine ⟨h96, le_refl _, ?_, fun _ => rfl⟩
    intro hmax
    exact absurd (by simpa using hall 9600 h96) (by simpa using hmax)
  | some r =>
    obtain ⟨hr, hgr⟩ := find_le_greatest hsort hfind
    have hmem : r ∈ baud_rates := List.mem_of_find?_eq_some hfind
    refine ⟨hmem, hfloor r hmem, fun _ => ⟨hr, hgr⟩, ?_⟩
    intro hmax
    exact absurd (lt_of_le_of_lt hr hmax) (not_lt.mpr (hfloor r hmem))

/-- C9 witness: the theorem applied at `max = 1000000` (a table entry is
returned, maximal among rates `≤ max`) and at `max = 9599` (floor). -/
theorem c9_best_baudrate_witness :
    (ra_best_baudrate 1000000 ≤ 1000000 ∧
      ∀ r ∈ baud_rates, r ≤ 1000000 → r ≤ ra_best_baudrate 1000000) ∧
    ra_best_baudrate 9599 = 9600 :=
  ⟨(c9_best_baudrate 1000000).2.2.1 (by decide), (c9_best_baudrate 9599).2.2.2 (by decide)⟩

/-- C8 counterexample: with current state DPL and destination SSD — a pair
outside the allowed unauthenticated-transition table — the host does not
reject before sending: `ra_dlm_transit` goes ahead and sends the
`DLM_TRANSIT` request `{SDLM = DPL, DDLM = SSD}`. -/
theorem c8_counterexample :
    spec_allowed_dlm_transition DLM_STATE_DPL DLM_STATE_SSD = false ∧
    ra_dlm_transit_action DLM_STATE_DPL DLM_STATE_SSD =
      .send DLM_STATE_DPL DLM_STATE_SSD := by
  decide

/-- C8 amended: `ra_dlm_transit` performs no host-side re-check of the
(current, destination) pair against the allowed-transition table: for any
two distinct states it sends the request, and when the states are equal it
returns successfully without sending.  The only host-side restriction is
the CLI parser, which accepts exactly ssd/nsecsd/dpl/lck_dbg/lck_boot as
`dlm-transit` destinations, so RMA_REQ cannot be requested that way. -/
theorem c8_transit_amended :
    (∀ cur dest : Nat, cur ≠ dest → ra_dlm_transit_action cur dest = .send cur dest) ∧
    (∀ cur : Nat, ra_dlm_transit_action cur cur = .alreadyInTarget) ∧
    (∀ s d, cli_dlm_transit_state s = some d →
      d = DLM_STATE_SSD ∨ d = DLM_STATE_NSECSD ∨ d = DLM_STATE_DPL ∨
      d = DLM_STATE_LCK_DBG ∨ d = DLM_STATE_LCK_BOOT) ∧
    (∀ s, cli_dlm_transit_state s ≠ some DLM_STATE_RMA_REQ) := by
  refine ⟨?_, ?_, ?_, ?_⟩
  · intro cur dest hne
    simp [ra_dlm_transit_action, hne]
  · intro cur
    simp [ra_dlm_transit_action]
  · intro s d h
    unfold cli_dlm_transit_state at h
    split_ifs at h <;> simp at h <;> omega
  · intro s h
    unfold cli_dlm_transit_state at h
    split_ifs at h <;> simp [DLM_STATE_SSD, DLM_STATE_NSECSD, DLM_STATE_DPL,
      DLM_STATE_LCK_DBG, DLM_STATE_LCK_BOOT, DLM_STATE_RMA_REQ] at h

/-- C8 witness: the amended claim applied to the spec's scenario — current
SSD, requested RMA_REQ: the CLI rejects the state name, and for the
distinct pair (SSD, DPL) the engine sends without any table check. -/
theorem c8_transit_witness :
    ra_dlm_transit_action DLM_STATE_SSD DLM_STATE_DPL =
      .send DLM_STATE_SSD DLM_STATE_DPL ∧
    cli_dlm_transit_state "rma_req" ≠ some DLM_STATE_RMA_REQ :=
  ⟨c8_transit_amended.1 DLM_STATE_SSD DLM_STATE_DPL (by decide),
    c8_transit_amended.2.2.2 "rma_req"⟩

/-- C3: `ra_pack_pkt` fails with `EINVAL` exactly when the payload exceeds
1024 bytes, fails with `ENOBUFS` when the payload fits but the buffer
capacity is below `data_len + 6`, and otherwise succeeds producing a frame
of length `data_len + 6` whose start-of-data byte is `0x01` for a command
and `0x81` for an ack. -/
theorem c3_pack_errors (buflen cmd : Nat) (data : List Nat) (ack : Bool) :
    (ra_pack_pkt buflen cmd data ack = .error .einval ↔ MAX_DATA_LEN < data.length) ∧
    (ra_pack_pkt buflen cmd data ack = .error .enobufs ↔
      data.length ≤ MAX_DATA_LEN ∧ buflen < data.length + 6) ∧
    (data.length ≤ MAX_DATA_LEN → data.length + 6 ≤ buflen →
      ∃ frame, ra_pack_pkt buflen cmd data ack = .ok frame ∧
        frame.length = data.length + 6 ∧
        byteAt frame 0 = if ack then SOD_ACK else SOD_CMD) := by
  by_cases h1 : MAX_DATA_LEN < data.length
  · refine ⟨by simp [ra_pack_pkt, h1], ?_, ?_⟩
    · simp [ra_pack_pkt, h1]
    · intro hle _
      exact absurd h1 (not_lt.mpr hle)
  · by_cases h2 : buflen < data.length + 6
    · refine ⟨?_, ?_, ?_⟩
      · simp [ra_pack_pkt, h1, h2]
      · simp [ra_pack_pkt, h1, h2]
        omega
      · intro _ hge
        exact absurd h2 (not_lt.mpr hge)
    · refine ⟨by simp [ra_pack_pkt, h1, h2], by simp [ra_pack_pkt, h1, h2], ?_⟩
      intro _ _
      refine ⟨[if ack then SOD_ACK else SOD_CMD, (data.length + 1) % 2 ^ 16 / 2 ^ 8 % 2 ^ 8,
        (data.length + 1) % 2 ^ 16 % 2 ^ 8, cmd % 2 ^ 8] ++ data.map (· % 2 ^ 8) ++
        [ra_calc_sum cmd data, ETX], ?_, ?_, ?_⟩
      · simp [ra_pack_pkt, h1, h2]
      · simp
      · cases ack <;> simp [byteAt, SOD_ACK, SOD_CMD]

/-- C3 witness: a 1024-byte payload is accepted (frame length 1030, SOD
`0x01`), a 1025-byte payload is rejected with the invalid-argument error,
and a too-small buffer yields the buffer-too-small error. -/
theorem c3_pack_errors_witness :
    (∃ frame, ra_pack_pkt 1030 0x13 (List.replicate 1024 0x55) false = .ok frame ∧
      frame.length = (List.replicate 1024 0x55).length + 6 ∧
      byteAt frame 0 = if false then SOD_ACK else SOD_CMD) ∧
    ra_pack_pkt 1031 0x13 (List.replicate 1025 0xAA) false = .error .einval ∧
    ra_pack_pkt 5 0x12 [0] false = .error .enobufs :=
  ⟨(c3_pack_errors 1030 0x13 (List.replicate 1024 0x55) false).2.2
      (by rw [List.length_replicate]; norm_num [MAX_DATA_LEN])
      (by rw [List.length_replicate]),
    (c3_pack_errors 1031 0x13 (List.replicate 1025 0xAA) false).1.mpr
      (by rw [List.length_replicate]; norm_num [MAX_DATA_LEN]),
    (c3_pack_errors 5 0x12 [0] false).2.1.mpr (by norm_num [MAX_DATA_LEN])⟩

theorem byteAt_lt (buf : List Nat) (i : Nat) : byteAt buf i < 2 ^ 8 :=
  Nat.mod_lt _ (by norm_num)

theorem map_mod_idem (l : List Nat) :
    (l.map (· % 2 ^ 8)).map (· % 2 ^ 8) = l.map (· % 2 ^ 8) := by
  refine map_mod_eq_self ?_
  intro b hb
  obtain ⟨a, -, rfl⟩ := List.mem_map.1 hb
  exact Nat.mod_lt _ (by norm_num)

/-- C4 (code-bug exhibit): on a device error response — here
`81 00 02 93 C3 38 03`, a WRI error frame carrying STS `0xC3` — the claim
says `ra_unpack_pkt` returns the error payload and still yields the RES
byte through its `cmd` output parameter.  The code does return the payload
(`data = [0xC3]`, `*data_len = 1`) with the response-error errno `EIO`,
but never writes `*cmd` on this path, so its caller `unpack_with_error`
branches on the uninitialized local `cmd`: with initial garbage `0x00` it
mis-reports a generic unpack failure, with garbage `0x80` it reports the
MCU error — the intended behaviour only by accident. -/
theorem c4_unpack_error_drops_res :
    ra_unpack_pkt [0x81, 0x00, 0x02, 0x93, 0xC3, 0x38, 0x03] =
      ⟨.error .eio, some [0xC3], some 1, none⟩ ∧
    unpack_with_error [0x81, 0x00, 0x02, 0x93, 0xC3, 0x38, 0x03] 0x00 =
      (.error .eio, some (.unpackFailed 0x00)) ∧
    unpack_with_error [0x81, 0x00, 0x02, 0x93, 0xC3, 0x38, 0x03] 0x80 =
      (.error .eio, some (.mcuError 0xC3)) := by
  refine ⟨?_, ?_, ?_⟩ <;> rfl

/-- C1 counterexample: the claim quantifies over every ack flag and every
command byte, but (a) a frame packed with `ack = false` starts with SOD
`0x01`, which `ra_unpack_pkt` rejects with `EPROTO`, and (b) a command
byte with the high bit set (here `0x80`), even packed as a response,
is treated as a device error and unpacking fails with `EIO`. -/
theorem c1_counterexample :
    ra_pack_pkt 6 0x00 [] false = .ok [0x01, 0x00, 0x01, 0x00, 0xFF, 0x03] ∧
    (ra_unpack_pkt [0x01, 0x00, 0x01, 0x00, 0xFF, 0x03]).res = .error .eproto ∧
    ra_pack_pkt 6 0x80 [] true = .ok [0x81, 0x00, 0x01, 0x80, 0x7F, 0x03] ∧
    (ra_unpack_pkt [0x81, 0x00, 0x01, 0x80, 0x7F, 0x03]).res = .error .eio := by
  refine ⟨?_, ?_, ?_, ?_⟩ <;> rfl

/-- C1 (amended): for every command byte without the error bit and every
payload of at most 1024 bytes, packing a *response* frame (`ack = true`)
and unpacking it returns exactly the original payload and command byte
(the checksum check passing); conversely `pack` after `unpack` is the
identity on well-formed response frames (byte buffers `ra_unpack_pkt`
accepts whose length is the framed length and whose payload is within
the 1024-byte maximum). -/
theorem c1_roundtrip_amended :
    (∀ (cmd buflen : Nat) (data : List Nat),
      cmd < 2 ^ 8 → cmd &&& STATUS_ERR = 0 → data.length ≤ MAX_DATA_LEN →
      (∀ b ∈ data, b < 2 ^ 8) → data.length + 6 ≤ buflen →
      ∃ frame, ra_pack_pkt buflen cmd data true = .ok frame ∧
        ra_unpack_pkt frame =
          ⟨.ok data.length, if 0 < data.length then some data else none,
            some data.length, some cmd⟩) ∧
    (∀ (buf : List Nat) (dlen : Nat),
      (∀ b ∈ buf, b < 2 ^ 8) → (ra_unpack_pkt buf).res = .ok dlen →
      buf.length = dlen + 6 → dlen ≤ MAX_DATA_LEN →
      ra_pack_pkt buf.length (byteAt buf 3) ((buf.drop 4).take dlen) true = .ok buf) := by
  constructor
  · intro cmd buflen data hc herr hlen hbytes hbuf
    have hpack := pack_ack_eq buflen cmd data hlen hbuf
    rw [Nat.mod_eq_of_lt hc, map_mod_eq_self hbytes] at hpack
    exact ⟨_, hpack, unpack_mkFrame cmd data _ hc herr hbytes hlen rfl⟩
  · intro buf dlen hbytes hok hlen hdmax
    exact pack_after_unpack buf dlen hbytes hok hlen hdmax

/-- C1 witness: the round trip at `cmd = 0x15` (REA) with payload
`AA BB CC`, and the reverse direction on the concrete response frame
`81 00 04 15 AA BB CC B6 03`. -/
theorem c1_roundtrip_witness :
    (∃ frame, ra_pack_pkt 9 0x15 [0xAA, 0xBB, 0xCC] true = .ok frame ∧
      ra_unpack_pkt frame =
        ⟨.ok 3, some [0xAA, 0xBB, 0xCC], some 3, some 0x15⟩) ∧
    ra_pack_pkt 9 (byteAt [0x81, 0x00, 0x04, 0x15, 0xAA, 0xBB, 0xCC, 0xB6, 0x03] 3)
        (([0x81, 0x00, 0x04, 0x15, 0xAA, 0xBB, 0xCC, 0xB6, 0x03].drop 4).take 3) true =
      .ok [0x81, 0x00, 0x04, 0x15, 0xAA, 0xBB, 0xCC, 0xB6, 0x03] :=
  ⟨c1_roundtrip_amended.1 0x15 9 [0xAA, 0xBB, 0xCC] (by decide) (by decide) (by decide)
      (by decide) (by decide),
    c1_roundtrip_amended.2 [0x81, 0x00, 0x04, 0x15, 0xAA, 0xBB, 0xCC, 0xB6, 0x03] 3
      (by decide) (by rfl) (by rfl) (by decide)⟩

/-- C2: every frame `ra_pack_pkt` produces and every frame `ra_unpack_pkt`
accepts satisfies `LNH + LNL + CMD/RES + Σ DATA + SUM ≡ 0 (mod 256)`; and
`ra_calc_sum` is the two's complement of the 8-bit sum of LNH, LNL, the
command byte and the data bytes. -/
theorem c2_checksum :
    (∀ (buflen cmd : Nat) (data : List Nat) (ack : Bool) (frame : List Nat),
      ra_pack_pkt buflen cmd data ack = .ok frame →
      (byteAt frame 1 + byteAt frame 2 + byteAt frame 3 +
        (((frame.drop 4).take data.length).map (· % 2 ^ 8)).sum +
        byteAt frame (4 + data.length)) % 2 ^ 8 = 0) ∧
    (∀ (buf : List Nat) (dlen : Nat), (ra_unpack_pkt buf).res = .ok dlen →
      (byteAt buf 1 + byteAt buf 2 + byteAt buf 3 +
        (((buf.drop 4).take dlen).map (· % 2 ^ 8)).sum +
        byteAt buf (4 + dlen)) % 2 ^ 8 = 0) ∧
    (∀ (cmd : Nat) (data : List Nat),
      ra_calc_sum cmd data =
        (2 ^ 8 - ((data.length + 1) % 2 ^ 16 / 2 ^ 8 % 2 ^ 8 +
          (data.length + 1) % 2 ^ 16 % 2 ^ 8 + cmd % 2 ^ 8 +
          (data.map (· % 2 ^ 8)).sum) % 2 ^ 8) % 2 ^ 8) := by
  refine ⟨?_, ?_, ?_⟩
  · intro buflen cmd data ack frame hp
    unfold ra_pack_pkt at hp
    by_cases w1 : data.length > MAX_DATA_LEN
    · rw [if_pos w1] at hp
      exact absurd hp (by simp)
    rw [if_neg w1] at hp
    by_cases w2 : buflen < data.length + 6
    · rw [if_pos w2] at hp
      exact absurd hp (by simp)
    rw [if_neg w2] at hp
    have hf : ([if ack then SOD_ACK else SOD_CMD, (data.length + 1) % 2 ^ 16 / 2 ^ 8 % 2 ^ 8,
        (data.length + 1) % 2 ^ 16 % 2 ^ 8, cmd % 2 ^ 8] ++
          (data.map (· % 2 ^ 8) ++ [ra_calc_sum cmd data, ETX])) = frame := by
      simpa [List.append_assoc] using hp
    subst hf
    have hm : (data.map (· % 2 ^ 8)).length = data.length := List.length_map _ _
    have hB1 : byteAt ([if ack then SOD_ACK else SOD_CMD,
        (data.length + 1) % 2 ^ 16 / 2 ^ 8 % 2 ^ 8, (data.length + 1) % 2 ^ 16 % 2 ^ 8,
        cmd % 2 ^ 8] ++ (data.map (· % 2 ^ 8) ++ [ra_calc_sum cmd data, ETX])) 1 =
        (data.length + 1) % 2 ^ 16 / 2 ^ 8 % 2 ^ 8 := by
      simp [byteAt]
    have hB2 : byteAt ([if ack then SOD_ACK else SOD_CMD,
        (data.length + 1) % 2 ^ 16 / 2 ^ 8 % 2 ^ 8, (data.length + 1) % 2 ^ 16 % 2 ^ 8,
        cmd % 2 ^ 8] ++ (data.map (· % 2 ^ 8) ++ [ra_calc_sum cmd data, ETX])) 2 =
        (data.length + 1) % 2 ^ 16 % 2 ^ 8 := by
      simp [byteAt]
    have hB3 : byteAt ([if ack then SOD_ACK else SOD_CMD,
        (data.length + 1) % 2 ^ 16 / 2 ^ 8 % 2 ^ 8, (data.length + 1) % 2 ^ 16 % 2 ^ 8,
        cmd % 2 ^ 8] ++ (data.map (· % 2 ^ 8) ++ [ra_calc_sum cmd data, ETX])) 3 =
        cmd % 2 ^ 8 := by
      simp [byteAt]
    rw [hB1, hB2, hB3,
      shape_byteAt_sum _ _ _ _ _ _ data.length (data.map (· % 2 ^ 8)) hm,
      shape_take _ _ _ _ _ _ data.length (data.map (· % 2 ^ 8)) hm,
      Nat.mod_eq_of_lt (ra_calc_sum_lt cmd data), map_mod_idem]
    exact ra_calc_sum_cancel cmd data
  · intro buf dlen h
    obtain ⟨-, hhdr, htot, -, -, hsum, -, -, -⟩ := unpack_ok_elim h
    have hslice : ((buf.drop 4).take dlen).length = dlen := by
      simp
      omega
    have hkey := ra_calc_sum_cancel (byteAt buf 3) ((buf.drop 4).take dlen)
    rw [hslice] at hkey
    rw [hsum]
    have hb1 := byteAt_lt buf 1
    have hb2 := byteAt_lt buf 2
    have hA : (dlen + 1) % 2 ^ 16 / 2 ^ 8 % 2 ^ 8 = byteAt buf 1 := by omega
    have hB : (dlen + 1) % 2 ^ 16 % 2 ^ 8 = byteAt buf 2 := by omega
    have hC : byteAt buf 3 % 2 ^ 8 = byteAt buf 3 := Nat.mod_eq_of_lt (byteAt_lt buf 3)
    rw [hA, hB, hC] at hkey
    exact hkey
  · intro cmd data
    have h1 := ra_calc_sum_cancel cmd data
    have h2 := ra_calc_sum_lt cmd data
    generalize hT : ((data.length + 1) % 2 ^ 16 / 2 ^ 8 % 2 ^ 8 +
      (data.length + 1) % 2 ^ 16 % 2 ^ 8 + cmd % 2 ^ 8 +
      (data.map (· % 2 ^ 8)).sum) = T at h1 ⊢
    omega

/-- C2 witness: the identity applied to the packed ERA frame of the spec's
erase scenario, to the accepted erase-OK response `81 00 02 12 00 EC 03`,
and to `ra_calc_sum 0x12 [0x00]` (which the unit tests pin to `0xEC`). -/
theorem c2_checksum_witness :
    ((byteAt [0x01, 0x00, 0x09, 0x12, 0x00, 0x00, 0x00, 0x00, 0x00, 0x00, 0x1F, 0xFF,
        0xC7, 0x03] 1 +
      byteAt [0x01, 0x00, 0x09, 0x12, 0x00, 0x00, 0x00, 0x00, 0x00, 0x00, 0x1F, 0xFF,
        0xC7, 0x03] 2 +
      byteAt [0x01, 0x00, 0x09, 0x12, 0x00, 0x00, 0x00, 0x00, 0x00, 0x00, 0x1F, 0xFF,
        0xC7, 0x03] 3 +
      ((([0x01, 0x00, 0x09, 0x12, 0x00, 0x00, 0x00, 0x00, 0x00, 0x00, 0x1F, 0xFF,
        0xC7, 0x03].drop 4).take 8).map (· % 2 ^ 8)).sum +
      byteAt [0x01, 0x00, 0x09, 0x12, 0x00, 0x00, 0x00, 0x00, 0x00, 0x00, 0x1F, 0xFF,
        0xC7, 0x03] (4 + 8)) % 2 ^ 8 = 0) ∧
    ((byteAt [0x81, 0x00, 0x02, 0x12, 0x00, 0xEC, 0x03] 1 +
      byteAt [0x81, 0x00, 0x02, 0x12, 0x00, 0xEC, 0x03] 2 +
      byteAt [0x81, 0x00, 0x02, 0x12, 0x00, 0xEC, 0x03] 3 +
      ((([0x81, 0x00, 0x02, 0x12, 0x00, 0xEC, 0x03].drop 4).take 1).map (· % 2 ^ 8)).sum +
      byteAt [0x81, 0x00, 0x02, 0x12, 0x00, 0xEC, 0x03] (4 + 1)) % 2 ^ 8 = 0) :=
  ⟨by
    have := c2_checksum.1 14 0x12 [0x00, 0x00, 0x00, 0x00, 0x00, 0x00, 0x1F, 0xFF] false
      [0x01, 0x00, 0x09, 0x12, 0x00, 0x00, 0x00, 0x00, 0x00, 0x00, 0x1F, 0xFF, 0xC7, 0x03]
      (by rfl)
    simpa using this,
   by
    have := c2_checksum.2.1 [0x81, 0x00, 0x02, 0x12, 0x00, 0xEC, 0x03] 1 (by rfl)
    simpa using this⟩

/-! ### Boundary arithmetic (C5) -/

theorem sub_mod_eq_zero {r a b : Nat} (ha : a % r = 0) (hb : b % r = 0) :
    (a - b) % r = 0 := by
  have h1 : r ∣ a := Nat.dvd_iff_mod_eq_zero.mpr ha
  have h2 : r ∣ b := Nat.dvd_iff_mod_eq_zero.mpr hb
  exact Nat.dvd_iff_mod_eq_zero.mp (Nat.dvd_sub' h1 h2)

/-- The shared arithmetic of `set_erase_boundaries` / `set_write_boundaries`:
an accepted `(start, size)` with alignment unit `u` satisfies all four
claimed properties (the `end − start + 1` difference taken in `uint32`
arithmetic, as the code computes it). -/
theorem block_boundary_spec (u ead start size e : Nat)
    (hu : 0 < u) (hstart : start < U32)
    (halign : start % u = 0)
    (he : e = ((size + u - 1) % U32 / u * u + start + (U32 - 1)) % U32)
    (hgt : start < e) (hle : e ≤ ead) :
    start % u = 0 ∧ start ≤ e ∧ e ≤ ead ∧ (e - start + 1) % U32 % u = 0 := by
  refine ⟨halign, le_of_lt hgt, hle, ?_⟩
  simp only [U32] at he ⊢
  set m := (size + u - 1) % 2 ^ 32 with hm
  have hmlt : m < 2 ^ 32 := by
    rw [hm]
    exact Nat.mod_lt _ (by norm_num)
  set B := m / u * u with hB
  have hBle : B ≤ m := Nat.div_mul_le_self m u
  have hBmod : B % u = 0 := Nat.mul_mod_left _ _
  by_cases h0 : B + start = 0
  · have hfull : e - start + 1 = 2 ^ 32 := by omega
    rw [hfull, Nat.mod_self]
    exact Nat.zero_mod u
  · have hnw1 : e - start + 1 = B := by omega
    have hnw2 : B < 2 ^ 32 := by omega
    rw [hnw1, Nat.mod_eq_of_lt hnw2]
    exact hBmod

theorem set_erase_boundaries_spec (layout : List RaArea) (start size area e : Nat)
    (hstart : start < U32)
    (h : set_erase_boundaries layout start size = some (area, e)) :
    start % (layout.getD area default).eau = 0 ∧ start ≤ e ∧
    e ≤ (layout.getD area default).ead ∧
    (e - start + 1) % U32 % (layout.getD area default).eau = 0 := by
  cases hfind : find_area_for_address layout start with
  | none =>
    simp only [set_erase_boundaries, hfind] at h
    simp at h
  | some i =>
    simp only [set_erase_boundaries, hfind] at h
    by_cases h1 : (layout.getD i default).eau = 0
    · rw [if_pos h1] at h
      simp at h
    rw [if_neg h1] at h
    by_cases h2 : start % (layout.getD i default).eau ≠ 0
    · rw [if_pos h2] at h
      simp at h
    rw [if_neg h2] at h
    by_cases h3 : ((size + (layout.getD i default).eau - 1) % U32 /
        (layout.getD i default).eau * (layout.getD i default).eau + start + (U32 - 1)) % U32 ≤
        start
    · rw [if_pos h3] at h
      simp at h
    rw [if_neg h3] at h
    by_cases h4 : (layout.getD i default).ead <
        ((size + (layout.getD i default).eau - 1) % U32 /
          (layout.getD i default).eau * (layout.getD i default).eau + start + (U32 - 1)) % U32
    · rw [if_pos h4] at h
      simp at h
    rw [if_neg h4] at h
    have hae : i = area ∧ ((size + (layout.getD i default).eau - 1) % U32 /
        (layout.getD i default).eau * (layout.getD i default).eau + start + (U32 - 1)) % U32 =
        e := by
      simpa using h
    obtain ⟨rfl, hE⟩ := hae
    exact block_boundary_spec (layout.getD i default).eau (layout.getD i default).ead
      start size e (by omega) hstart (by omega) hE.symm (by omega) (by omega)

theorem set_write_boundaries_spec (layout : List RaArea) (start size area e : Nat)
    (hstart : start < U32)
    (h : set_write_boundaries layout start size = some (area, e)) :
    start % (layout.getD area default).wau = 0 ∧ start ≤ e ∧
    e ≤ (layout.getD area default).ead ∧
    (e - start + 1) % U32 % (layout.getD area default).wau = 0 := by
  cases hfind : find_area_for_address layout start with
  | none =>
    simp only [set_write_boundaries, hfind] at h
    simp at h
  | some i =>
    simp only [set_write_boundaries, hfind] at h
    by_cases h1 : (layout.getD i default).wau = 0
    · rw [if_pos h1] at h
      simp at h
    rw [if_neg h1] at h
    by_cases h2 : start % (layout.getD i default).wau ≠ 0
    · rw [if_pos h2] at h
      simp at h
    rw [if_neg h2] at h
    by_cases h3 : ((size + (layout.getD i default).wau - 1) % U32 /
        (layout.getD i default).wau * (layout.getD i default).wau + start + (U32 - 1)) % U32 ≤
        start
    · rw [if_pos h3] at h
      simp at h
    rw [if_neg h3] at h
    by_cases h4 : (layout.getD i default).ead <
        ((size + (layout.getD i default).wau - 1) % U32 /
          (layout.getD i default).wau * (layout.getD i default).wau + start + (U32 - 1)) % U32
    · rw [if_pos h4] at h
      simp at h
    rw [if_neg h4] at h
    have hae : i = area ∧ ((size + (layout.getD i default).wau - 1) % U32 /
        (layout.getD i default).wau * (layout.getD i default).wau + start + (U32 - 1)) % U32 =
        e := by
      simpa using h
    obtain ⟨rfl, hE⟩ := hae
    exact block_boundary_spec (layout.getD i default).wau (layout.getD i default).ead
      start size e (by omega) hstart (by omega) hE.symm (by omega) (by omega)

theorem set_read_boundaries_spec (layout : List RaArea) (start size area e : Nat)
    (hstart : start < U32) (hsize : size < U32) (hsz : 1 ≤ size)
    (hdvd : (layout.getD area default).rau ∣ U32)
    (heads : (layout.getD area default).ead < U32)
    (h : set_read_boundaries layout start size = some (area, e)) :
    start % (layout.getD area default).rau = 0 ∧ start ≤ e ∧
    e ≤ (layout.getD area default).ead ∧
    (((e + 1) % U32 % (layout.getD area default).rau = 0 ∧
      (e - start + 1) % U32 % (layout.getD area default).rau = 0) ∨
      e = (layout.getD area default).ead) := by
  cases hfind : find_area_for_address layout start with
  | none =>
    simp only [set_read_boundaries, hfind] at h
    simp at h
  | some i =>
    simp only [set_read_boundaries, hfind] at h
    by_cases h1 : (layout.getD i default).rau = 0
    · rw [if_pos h1] at h
      simp at h
    rw [if_neg h1] at h
    by_cases h2 : start % (layout.getD i default).rau ≠ 0
    · rw [if_pos h2] at h
      simp at h
    rw [if_neg h2] at h
    by_cases h3 : (start + size + (U32 - 1)) % U32 ≤ start ∧ 1 < size
    · rw [if_pos h3] at h
      simp at h
    rw [if_neg h3] at h
    by_cases h4 : (layout.getD i default).ead < (start + size + (U32 - 1)) % U32
    · rw [if_pos h4] at h
      simp at h
    rw [if_neg h4] at h
    have hae : i = area ∧
        (if ((start + size + (U32 - 1)) % U32 + 1) % U32 % (layout.getD i default).rau ≠ 0 then
          if (if (layout.getD i default).ead <
                (((start + size + (U32 - 1)) % U32 / (layout.getD i default).rau + 1) *
                    (layout.getD i default).rau % U32 + (U32 - 1)) % U32 then
              (layout.getD i default).ead
            else (((start + size + (U32 - 1)) % U32 / (layout.getD i default).rau + 1) *
                (layout.getD i default).rau % U32 + (U32 - 1)) % U32) ≠
              (start + size + (U32 - 1)) % U32 then
            if (layout.getD i default).ead <
                (((start + size + (U32 - 1)) % U32 / (layout.getD i default).rau + 1) *
                    (layout.getD i default).rau % U32 + (U32 - 1)) % U32 then
              (layout.getD i default).ead
            else (((start + size + (U32 - 1)) % U32 / (layout.getD i default).rau + 1) *
                (layout.getD i default).rau % U32 + (U32 - 1)) % U32
          else (start + size + (U32 - 1)) % U32
        else (start + size + (U32 - 1)) % U32) = e := by
      simpa using h
    obtain ⟨rfl, hE⟩ := hae
    push_neg at h2
    set rau := (layout.getD i default).rau with hraudef
    set ead := (layout.getD i default).ead with headdef
    have hrau : 0 < rau := by omega
    set e0 := (start + size + (U32 - 1)) % U32 with he0
    have hg4 : e0 ≤ ead := not_lt.mp h4
    have he0lt : e0 < U32 := by
      rw [he0]
      exact Nat.mod_lt _ (by norm_num [U32])
    have he0v : e0 = start + size - 1 ∧ start ≤ e0 := by
      simp only [U32] at he0 hstart hsize he0lt
      constructor
      · omega
      · by_cases hw : start + size - 1 < 2 ^ 32
        · omega
        · exfalso
          exact h3 ⟨by omega, by omega⟩
    have hU32rau : U32 % rau = 0 := Nat.dvd_iff_mod_eq_zero.mp hdvd
    by_cases hr : (e0 + 1) % U32 % rau ≠ 0
    · rw [if_pos hr] at hE
      set p := (e0 / rau + 1) * rau with hp
      set al := (p % U32 + (U32 - 1)) % U32 with hal
      have hqr := Nat.div_add_mod e0 rau
      have hrlt : e0 % rau < rau := Nat.mod_lt _ hrau
      have hpexp : p = rau * (e0 / rau) + rau := by rw [hp]; ring
      have hple : e0 < p := by omega
      have hple2 : p ≤ e0 + rau := by omega
      have hpm : p % rau = 0 := by rw [hp]; exact Nat.mul_mod_left _ _
      have he0succ : e0 + 1 < U32 := by
        rcases Nat.lt_or_ge (e0 + 1) U32 with hlt | hge
        · exact hlt
        · exfalso
          have hx : e0 + 1 = U32 := by omega
          rw [hx, Nat.mod_self, Nat.zero_mod] at hr
          exact hr rfl
      have hra : (e0 + 1) % rau ≠ 0 := by
        rwa [Nat.mod_eq_of_lt he0succ] at hr
      by_cases hpw : p < U32
      · have halv : al = p - 1 := by
          rw [hal]
          simp only [U32] at hpw ⊢
          omega
        by_cases hclamp : ead < al
        · rw [if_pos hclamp] at hE
          have hee : e = ead := by
            by_cases hne : ead ≠ e0
            · rw [if_pos hne] at hE
              omega
            · rw [if_neg hne] at hE
              omega
          exact ⟨h2, by omega, by omega, Or.inr hee⟩
        · rw [if_neg hclamp] at hE
          have hne : al ≠ e0 := by
            intro hcon
            apply hra
            have hpe : p = e0 + 1 := by omega
            rw [← hpe]
            exact hpm
          rw [if_pos hne] at hE
          have hev : e = p - 1 := by omega
          refine ⟨h2, by omega, by omega, Or.inl ⟨?_, ?_⟩⟩
          · have h5 : e + 1 = p := by omega
            rw [h5, Nat.mod_eq_of_lt hpw]
            exact hpm
          · have h5 : e - start + 1 = p - start := by omega
            have h6 : p - start < U32 := by omega
            rw [h5, Nat.mod_eq_of_lt h6]
            exact sub_mod_eq_zero hpm h2
      · obtain ⟨t, ht⟩ := hdvd
        have hpt : p = U32 := by
          have hp2 : p = rau * (e0 / rau + 1) := by rw [hp]; ring
          have hA : rau * (e0 / rau + 1) = rau * (e0 / rau) + rau := Nat.mul_succ rau _
          have hB : rau * (t + 1) = rau * t + rau := Nat.mul_succ rau t
          have hub : rau * (e0 / rau + 1) < rau * (t + 1) := by
            rw [hA, hB]
            omega
          have hlb : rau * t ≤ rau * (e0 / rau + 1) := by
            rw [← ht, ← hp2]
            exact not_lt.mp hpw
          have h7 : t ≤ e0 / rau + 1 := Nat.le_of_mul_le_mul_left hlb hrau
          have h8 : e0 / rau + 1 < t + 1 := Nat.lt_of_mul_lt_mul_left hub
          have h9 : e0 / rau + 1 = t := by omega
          rw [hp2, h9, ← ht]
        have halv : al = U32 - 1 := by
          rw [hal, hpt]
          simp only [U32]
          omega
        have headal : ead ≤ al := by omega
        by_cases hclamp : ead < al
        · rw [if_pos hclamp] at hE
          have hee : e = ead := by
            by_cases hne : ead ≠ e0
            · rw [if_pos hne] at hE
              omega
            · rw [if_neg hne] at hE
              omega
          exact ⟨h2, by omega, by omega, Or.inr hee⟩
        · rw [if_neg hclamp] at hE
          have heq : al = ead := by omega
          have hee : e = ead := by
            by_cases hne : al ≠ e0
            · rw [if_pos hne] at hE
              omega
            · rw [if_neg hne] at hE
              omega
          exact ⟨h2, by omega, by omega, Or.inr hee⟩
    · rw [if_neg hr] at hE
      push_neg at hr
      have hev : e = e0 := hE.symm
      refine ⟨h2, by omega, by omega, Or.inl ⟨by rw [hev]; exact hr, ?_⟩⟩
      rcases Nat.lt_or_ge (e0 + 1) U32 with hlt | hge
      · have hra : (e0 + 1) % rau = 0 := by rwa [Nat.mod_eq_of_lt hlt] at hr
        have h5 : e - start + 1 = e0 + 1 - start := by omega
        have h6 : e0 + 1 - start < U32 := by omega
        rw [h5, Nat.mod_eq_of_lt h6]
        exact sub_mod_eq_zero hra h2
      · have hx : e0 + 1 = U32 := by omega
        have h5 : e - start + 1 = U32 - start := by omega
        rw [h5]
        by_cases hs0 : start = 0
        · rw [hs0, Nat.sub_zero, Nat.mod_self]
          exact Nat.zero_mod rau
        · have h6 : U32 - start < U32 := by omega
          rw [Nat.mod_eq_of_lt h6]
          exact sub_mod_eq_zero hU32rau h2

/-- C5 counterexample: `set_read_boundaries` accepts `(start, size) =
(4, 0)` on an area with RAU 4 (start aligned, `end <= start` tolerated
because `size > 1` is false) and returns the inclusive end `3 = start - 1`,
violating the claimed `end ≥ start`. -/
theorem c5_counterexample :
    set_read_boundaries testLayout 4 0 = some (0, 3) ∧ (3 : Nat) < 4 := by
  constructor
  · decide
  · decide

/-- C5 (amended): for erase and write the claim holds as stated (with the
`end − start + 1` difference computed in `uint32` arithmetic as the code
does): an accepted `(start, size)` satisfies `start % A = 0`,
`start ≤ end`, `end ≤ EAD` and `A ∣ end − start + 1`.  For read the claim
holds provided `size ≥ 1` (a size-0 read is accepted with `end =
start − 1`) and RAU divides `2^32` (RAU is a power of two on real
devices), and the divisibility of `end − start + 1` holds together with
`(end + 1) % RAU = 0` unless the end was clamped to EAD, in which case
`end = EAD`. -/
theorem c5_boundaries_amended :
    (∀ (layout : List RaArea) (start size area e : Nat), start < U32 →
      set_erase_boundaries layout start size = some (area, e) →
      start % (layout.getD area default).eau = 0 ∧ start ≤ e ∧
      e ≤ (layout.getD area default).ead ∧
      (e - start + 1) % U32 % (layout.getD area default).eau = 0) ∧
    (∀ (layout : List RaArea) (start size area e : Nat), start < U32 →
      set_write_boundaries layout start size = some (area, e) →
      start % (layout.getD area default).wau = 0 ∧ start ≤ e ∧
      e ≤ (layout.getD area default).ead ∧
      (e - start + 1) % U32 % (layout.getD area default).wau = 0) ∧
    (∀ (layout : List RaArea) (start size area e : Nat), start < U32 → size < U32 →
      1 ≤ size → (layout.getD area default).rau ∣ U32 →
      (layout.getD area default).ead < U32 →
      set_read_boundaries layout start size = some (area, e) →
      start % (layout.getD area default).rau = 0 ∧ start ≤ e ∧
      e ≤ (layout.getD area default).ead ∧
      (((e + 1) % U32 % (layout.getD area default).rau = 0 ∧
        (e - start + 1) % U32 % (layout.getD area default).rau = 0) ∨
        e = (layout.getD area default).ead)) :=
  ⟨fun layout start size area e h1 h2 =>
      set_erase_boundaries_spec layout start size area e h1 h2,
    fun layout start size area e h1 h2 =>
      set_write_boundaries_spec layout start size area e h1 h2,
    fun layout start size area e h1 h2 h3 h4 h5 h6 =>
      set_read_boundaries_spec layout start size area e h1 h2 h3 h4 h5 h6⟩

/-- C5 witness: the amended claim applied to the unit-test device layout —
an 8 KiB erase at 0 (end `0x1FFF`), a 128-byte write at 0 (end `0x7F`),
and a 5-byte read at 0 rounded up to the RAU-aligned end 7. -/
theorem c5_boundaries_witness :
    (0 % (testLayout.getD 0 default).eau = 0 ∧ 0 ≤ 0x1FFF ∧
      0x1FFF ≤ (testLayout.getD 0 default).ead ∧
      (0x1FFF - 0 + 1) % U32 % (testLayout.getD 0 default).eau = 0) ∧
    (0 % (testLayout.getD 0 default).wau = 0 ∧ 0 ≤ 0x7F ∧
      0x7F ≤ (testLayout.getD 0 default).ead ∧
      (0x7F - 0 + 1) % U32 % (testLayout.getD 0 default).wau = 0) ∧
    (0 % (testLayout.getD 0 default).rau = 0 ∧ 0 ≤ 7 ∧
      7 ≤ (testLayout.getD 0 default).ead ∧
      (((7 + 1) % U32 % (testLayout.getD 0 default).rau = 0 ∧
        (7 - 0 + 1) % U32 % (testLayout.getD 0 default).rau = 0) ∨
        7 = (testLayout.getD 0 default).ead)) :=
  ⟨c5_boundaries_amended.1 testLayout 0 0x2000 0 0x1FFF (by decide) (by decide),
    c5_boundaries_amended.2.1 testLayout 0 0x80 0 0x7F (by decide) (by decide),
    c5_boundaries_amended.2.2 testLayout 0 5 0 7 (by decide) (by decide) (by decide)
      (by decide) (by decide) (by decide)⟩

/-! ### Read chunking (C6) -/

theorem read_assemble_eq_join (chunks : List (Nat × Nat)) (respond : Nat × Nat → List Nat) :
    read_assemble chunks respond = (chunks.map respond).join := by
  induction chunks with
  | nil => simp [read_assemble]
  | cons c rest ih => simp [read_assemble, ih]

theorem read_chunk_loop_spec (n : Nat) : ∀ cur e : Nat, cur ≤ e →
    n = (e - cur + 1 + (CHUNK_SIZE - 1)) / CHUNK_SIZE →
    (read_chunk_loop n cur e).length = n ∧
    ((read_chunk_loop n cur e).map fun c => List.range' c.1 (c.2 + 1 - c.1)).join =
      List.range' cur (e - cur + 1) ∧
    (∀ c ∈ read_chunk_loop n cur e, c.1 ≤ c.2 ∧ c.2 ≤ e ∧ c.2 + 1 - c.1 ≤ CHUNK_SIZE) ∧
    (∀ c ∈ read_chunk_loop n cur e, c.2 + 1 - c.1 = CHUNK_SIZE ∨ c.2 = e) := by
  induction n with
  | zero =>
    intro cur e hle hn
    simp only [CHUNK_SIZE] at hn
    omega
  | succ n ih =>
    intro cur e hle hn
    simp only [CHUNK_SIZE] at hn
    unfold read_chunk_loop
    simp only [CHUNK_SIZE]
    by_cases hbig : 1024 < e - cur + 1
    · rw [if_pos hbig]
      have hcur : cur + 1024 ≤ e := by omega
      have hn' : n = (e - (cur + 1024) + 1 + (1024 - 1)) / 1024 := by omega
      obtain ⟨ihl, ihj, ihb, ihf⟩ := ih (cur + 1024) e hcur (by simp only [CHUNK_SIZE]; omega)
      refine ⟨by simp [ihl], ?_, ?_, ?_⟩
      · simp only [List.map_cons, List.join_cons, ihj]
        have h1 : cur + 1024 - 1 + 1 - cur = 1024 := by omega
        rw [h1]
        have := List.range'_append cur 1024 (e - (cur + 1024) + 1) 1
        simp only [one_mul] at this
        rw [this]
        congr 1
        omega
      · intro c hc
        rcases List.mem_cons.1 hc with rfl | hc
        · exact ⟨by omega, by omega, by simp only [CHUNK_SIZE]; omega⟩
        · exact ihb c hc
      · intro c hc
        rcases List.mem_cons.1 hc with rfl | hc
        · left
          simp only [CHUNK_SIZE]
          omega
        · exact ihf c hc
    · rw [if_neg hbig]
      have hn0 : n = 0 := by omega
      subst hn0
      refine ⟨rfl, ?_, ?_, ?_⟩
      · simp only [read_chunk_loop, List.map_cons, List.map_nil, List.join_cons,
          List.join_nil, List.append_nil]
        congr 1
        omega
      · intro c hc
        simp only [read_chunk_loop, List.mem_singleton] at hc
        subst hc
        exact ⟨by omega, by omega, by simp only [CHUNK_SIZE]; omega⟩
      · intro c hc
        simp only [read_chunk_loop, List.mem_singleton] at hc
        subst hc
        right
        omega

/-- C6 counterexample to the exact chunk count: for a read of nearly the
whole 32-bit address space (`start = 0`, `end = 0xFFFFFC17`, i.e.
`N = 2^32 - 1000`) the `uint32` computation `total_size + CHUNK_SIZE - 1`
overflows, `nr_chunks` becomes 0, and `ra_read` issues no REA request at
all instead of `⌈N/1024⌉`. -/
theorem c6_counterexample :
    ra_read_chunks 0 (2 ^ 32 - 1001) = [] ∧
    (2 ^ 32 - 1001 - 0 + 1 + (CHUNK_SIZE - 1)) / CHUNK_SIZE ≠ 0 := by
  constructor
  · rfl
  · decide

/-- C6 (amended): for every range `[start, e]` with `start ≤ e` whose byte
count `N = e - start + 1` satisfies `N + 1023 < 2^32` (so the `uint32`
chunk-count computation does not overflow; true of every real device),
`ra_read` issues exactly `⌈N/1024⌉` REA requests, their sub-ranges tile
`[start, e]` in increasing address order, every chunk covers at most 1024
bytes and is exactly 1024 bytes unless it is the chunk ending at `e`, and
the chunk payloads are assembled by concatenation in request order. -/
theorem c6_read_chunks (start e : Nat) (hle : start ≤ e)
    (hcap : e - start + 1 + (CHUNK_SIZE - 1) < U32) :
    (ra_read_chunks start e).length = (e - start + 1 + (CHUNK_SIZE - 1)) / CHUNK_SIZE ∧
    ((ra_read_chunks start e).map fun c => List.range' c.1 (c.2 + 1 - c.1)).join =
      List.range' start (e - start + 1) ∧
    (∀ c ∈ ra_read_chunks start e, c.1 ≤ c.2 ∧ c.2 ≤ e ∧ c.2 + 1 - c.1 ≤ CHUNK_SIZE) ∧
    (∀ c ∈ ra_read_chunks start e, c.2 + 1 - c.1 = CHUNK_SIZE ∨ c.2 = e) ∧
    (∀ respond : Nat × Nat → List Nat,
      read_assemble (ra_read_chunks start e) respond =
        ((ra_read_chunks start e).map respond).join) := by
  have hmod : (e - start + 1 + (CHUNK_SIZE - 1)) % U32 = e - start + 1 + (CHUNK_SIZE - 1) :=
    Nat.mod_eq_of_lt hcap
  unfold ra_read_chunks
  rw [hmod]
  obtain ⟨h1, h2, h3, h4⟩ := read_chunk_loop_spec _ start e hle rfl
  exact ⟨h1, h2, h3, h4, fun respond => read_assemble_eq_join _ respond⟩

/-- C6 witness: the 3000-byte read of the spec's scenario — three REA
requests `(0,1023)`, `(1024,2047)`, `(2048,2999)` of sizes 1024, 1024 and
952, tiling `[0, 2999]`, assembled by concatenation. -/
theorem c6_read_chunks_witness :
    ((ra_read_chunks 0 2999).length = (2999 - 0 + 1 + (CHUNK_SIZE - 1)) / CHUNK_SIZE ∧
      ((ra_read_chunks 0 2999).map fun c => List.range' c.1 (c.2 + 1 - c.1)).join =
        List.range' 0 (2999 - 0 + 1) ∧
      (∀ c ∈ ra_read_chunks 0 2999, c.1 ≤ c.2 ∧ c.2 ≤ 2999 ∧ c.2 + 1 - c.1 ≤ CHUNK_SIZE) ∧
      (∀ c ∈ ra_read_chunks 0 2999, c.2 + 1 - c.1 = CHUNK_SIZE ∨ c.2 = 2999) ∧
      (∀ respond : Nat × Nat → List Nat,
        read_assemble (ra_read_chunks 0 2999) respond =
          ((ra_read_chunks 0 2999).map respond).join)) ∧
    ra_read_chunks 0 2999 = [(0, 1023), (1024, 2047), (2048, 2999)] :=
  ⟨c6_read_chunks 0 2999 (by decide) (by decide), by decide⟩

/-! ### Verify loop characterisation (C7) -/

theorem verify_scan_split (flash : Nat → Nat) (file : List Nat) (start : Nat) :
    ∀ (n1 n2 o : Nat),
      verify_scan flash file start o (n1 + n2) =
        (match verify_scan flash file start o n1 with
         | .ok => verify_scan flash file start (o + n1) n2
         | r => r) := by
  intro n1
  induction n1 with
  | zero =>
    intro n2 o
    simp [verify_scan]
  | succ n1 ih =>
    intro n2 o
    have harith : n1 + 1 + n2 = (n1 + n2) + 1 := by omega
    rw [harith]
    show (if o < file.length then
        if flash (start + o) ≠ file.getD o 0 then
          VerifyResult.mismatch (start + o) (flash (start + o)) (file.getD o 0)
        else verify_scan flash file start (o + 1) (n1 + n2)
      else if flash (start + o) ≠ 0xFF then
        VerifyResult.notBlank (start + o) (flash (start + o))
      else verify_scan flash file start (o + 1) (n1 + n2)) = _
    rw [ih n2 (o + 1)]
    show _ = (match (if o < file.length then
        if flash (start + o) ≠ file.getD o 0 then
          VerifyResult.mismatch (start + o) (flash (start + o)) (file.getD o 0)
        else verify_scan flash file start (o + 1) n1
      else if flash (start + o) ≠ 0xFF then
        VerifyResult.notBlank (start + o) (flash (start + o))
      else verify_scan flash file start (o + 1) n1) with
      | .ok => verify_scan flash file start (o + (n1 + 1)) n2
      | r => r)
    have hoo : o + 1 + n1 = o + (n1 + 1) := by omega
    by_cases h1 : o < file.length
    · rw [if_pos h1, if_pos h1]
      by_cases h2 : flash (start + o) ≠ file.getD o 0
      · rw [if_pos h2, if_pos h2]
      · rw [if_neg h2, if_neg h2, hoo]
    · rw [if_neg h1, if_neg h1]
      by_cases h2 : flash (start + o) ≠ 0xFF
      · rw [if_pos h2, if_pos h2]
      · rw [if_neg h2, if_neg h2, hoo]

theorem verify_scan_eq_cmp (flash : Nat → Nat) (file : List Nat) (start : Nat) :
    ∀ (n o : Nat), (∀ j < n, o + j < file.length) →
      verify_scan flash file start o n =
        (match verify_cmp flash file (start + o) o n with
         | some (a, fv, pv) => VerifyResult.mismatch a fv pv
         | none => VerifyResult.ok) := by
  intro n
  induction n with
  | zero =>
    intro o h
    simp [verify_scan, verify_cmp]
  | succ n ih =>
    intro o h
    have h0 : o < file.length := by
      have := h 0 (by omega)
      omega
    show (if o < file.length then
        if flash (start + o) ≠ file.getD o 0 then
          VerifyResult.mismatch (start + o) (flash (start + o)) (file.getD o 0)
        else verify_scan flash file start (o + 1) n
      else _) = _
    rw [if_pos h0]
    show _ = (match (if flash (start + o) ≠ file.getD o 0 then
        some (start + o, flash (start + o), file.getD o 0)
      else verify_cmp flash file (start + o + 1) (o + 1) n) with
      | some (a, fv, pv) => VerifyResult.mismatch a fv pv
      | none => VerifyResult.ok)
    by_cases h2 : flash (start + o) ≠ file.getD o 0
    · rw [if_pos h2, if_pos h2]
    · rw [if_neg h2, if_neg h2]
      have harr : start + o + 1 = start + (o + 1) := by omega
      rw [harr]
      exact ih (o + 1) (fun j hj => by have := h (j + 1) (by omega); omega)

theorem verify_scan_eq_blank (flash : Nat → Nat) (file : List Nat) (start : Nat) :
    ∀ (n o : Nat), file.length ≤ o →
      verify_scan flash file start o n =
        (match verify_blank flash (start + o) n with
         | some (a, fv) => VerifyResult.notBlank a fv
         | none => VerifyResult.ok) := by
  intro n
  induction n with
  | zero =>
    intro o h
    simp [verify_scan, verify_blank]
  | succ n ih =>
    intro o h
    show (if o < file.length then _
      else if flash (start + o) ≠ 0xFF then
        VerifyResult.notBlank (start + o) (flash (start + o))
      else verify_scan flash file start (o + 1) n) = _
    rw [if_neg (by omega)]
    show _ = (match (if flash (start + o) ≠ 0xFF then some (start + o, flash (start + o))
        else verify_blank flash (start + o + 1) n) with
      | some (a, fv) => VerifyResult.notBlank a fv
      | none => VerifyResult.ok)
    by_cases h2 : flash (start + o) ≠ 0xFF
    · rw [if_pos h2, if_pos h2]
    · rw [if_neg h2, if_neg h2]
      have harr : start + o + 1 = start + (o + 1) := by omega
      rw [harr]
      exact ih (o + 1) (by omega)

theorem verify_scan_chunk (flash : Nat → Nat) (file : List Nat) (start o cs : Nat) :
    verify_scan flash file start o cs =
      (match verify_cmp flash file (start + o) (min file.length o)
          (min (file.length - min file.length o) cs) with
       | some (a, fv, pv) => VerifyResult.mismatch a fv pv
       | none =>
         match verify_blank flash (start + o + min (file.length - min file.length o) cs)
             (cs - min (file.length - min file.length o) cs) with
         | some (a, fv) => VerifyResult.notBlank a fv
         | none => VerifyResult.ok) := by
  by_cases ho : file.length ≤ o
  · have hfo : min file.length o = file.length := min_eq_left ho
    have hcl : min (file.length - min file.length o) cs = 0 := by
      rw [hfo]
      simp
    rw [hcl, hfo, verify_scan_eq_blank flash file start cs o ho]
    simp [verify_cmp]
  · push_neg at ho
    have hfo : min file.length o = o := min_eq_right (le_of_lt ho)
    rw [hfo]
    by_cases hsub : cs ≤ file.length - o
    · have hcl : min (file.length - o) cs = cs := min_eq_right hsub
      rw [hcl, Nat.sub_self, verify_scan_eq_cmp flash file start cs o (fun j hj => by omega)]
      cases verify_cmp flash file (start + o) o cs with
      | none => simp [verify_blank]
      | some v =>
        rcases v with ⟨a, fv, pv⟩
        simp
    · push_neg at hsub
      have hcl : min (file.length - o) cs = file.length - o := min_eq_left (le_of_lt hsub)
      rw [hcl]
      have hsplit : cs = (file.length - o) + (cs - (file.length - o)) := by omega
      conv_lhs => rw [hsplit]
      rw [verify_scan_split flash file start (file.length - o) (cs - (file.length - o)) o,
        verify_scan_eq_cmp flash file start (file.length - o) o (fun j hj => by omega),
        verify_scan_eq_blank flash file start (cs - (file.length - o)) (o + (file.length - o))
          (by omega)]
      have haddr : start + (o + (file.length - o)) = start + o + (file.length - o) := by omega
      rw [haddr]
      cases verify_cmp flash file (start + o) o (file.length - o) with
      | none => rfl
      | some v =>
        rcases v with ⟨a, fv, pv⟩
        rfl

theorem verify_loop_eq_scan (flash : Nat → Nat) (file : List Nat) (start e N : Nat)
    (hN : start + N = e + 1) :
    ∀ (n o : Nat), o ≤ N → n = (N - o + (CHUNK_SIZE - 1)) / CHUNK_SIZE →
      verify_loop flash file e n (start + o) (min file.length o) =
        verify_scan flash file start o (N - o) := by
  intro n
  induction n with
  | zero =>
    intro o ho hn
    simp only [CHUNK_SIZE] at hn
    have h0 : N - o = 0 := by omega
    rw [h0]
    rfl
  | succ n ih =>
    intro o ho hn
    simp only [CHUNK_SIZE] at hn
    have holt : o < N := by omega
    have hrem : e - (start + o) + 1 = N - o := by omega
    simp only [verify_loop]
    rw [hrem]
    set cs := if CHUNK_SIZE < N - o then CHUNK_SIZE else N - o with hcs
    set cmp_len := if file.length - min file.length o < cs
        then file.length - min file.length o else cs with hclen
    have hcsle : cs ≤ N - o ∧ 0 < cs := by
      rw [hcs]
      simp only [CHUNK_SIZE]
      split_ifs <;> omega
    have hclmin : cmp_len = min (file.length - min file.length o) cs := by
      rw [hclen]
      split_ifs <;> omega
    have hsucc : N - o = cs + (N - o - cs) := by omega
    conv_rhs => rw [hsucc]
    rw [verify_scan_split flash file start cs (N - o - cs) o, verify_scan_chunk]
    rw [← hclmin]
    have hnext : verify_loop flash file e n (start + o + cs)
        (min file.length o + cmp_len) = verify_scan flash file start (o + cs) (N - o - cs) := by
      have haddr : start + o + cs = start + (o + cs) := by omega
      have hfo : min file.length o + cmp_len = min file.length (o + cs) := by
        rw [hclmin]
        omega
      rw [haddr, hfo]
      have harith : N - (o + cs) = N - o - cs := by omega
      rw [← harith]
      refine ih (o + cs) (by omega) ?_
      rw [hcs]
      simp only [CHUNK_SIZE]
      split_ifs <;> omega
    cases hc : verify_cmp flash file (start + o) (min file.length o) cmp_len with
    | some v =>
      rcases v with ⟨a, fv, pv⟩
      rfl
    | none =>
      cases hb : verify_blank flash (start + o + cmp_len) (cs - cmp_len) with
      | some v =>
        rcases v with ⟨a, fv⟩
        have hlt : cmp_len < cs := by
          rcases Nat.lt_or_ge cmp_len cs with h | h
          · exact h
          · exfalso
            have h0 : cs - cmp_len = 0 := by omega
            rw [h0] at hb
            simp [verify_blank] at hb
        rw [if_pos hlt]
      | none =>
        by_cases hlt : cmp_len < cs
        · rw [if_pos hlt]
          exact hnext
        · rw [if_neg hlt]
          exact hnext

theorem verify_scan_ok_iff (flash : Nat → Nat) (file : List Nat) (start : Nat) :
    ∀ (n o : Nat),
      (verify_scan flash file start o n = .ok ↔
        ∀ j < n, ¬ scanViol flash file start (o + j)) := by
  intro n
  induction n with
  | zero =>
    intro o
    simp [verify_scan]
  | succ n ih =>
    intro o
    show (if o < file.length then
        if flash (start + o) ≠ file.getD o 0 then
          VerifyResult.mismatch (start + o) (flash (start + o)) (file.getD o 0)
        else verify_scan flash file start (o + 1) n
      else if flash (start + o) ≠ 0xFF then
        VerifyResult.notBlank (start + o) (flash (start + o))
      else verify_scan flash file start (o + 1) n) = .ok ↔ _
    constructor
    · intro h j hj
      match j with
      | 0 =>
        intro hviol
        unfold scanViol at hviol
        by_cases h1 : o < file.length
        · rw [if_pos h1] at h
          rw [if_pos (by omega : o + 0 < file.length)] at hviol
          have h2 : flash (start + o) ≠ file.getD o 0 := by
            simpa using hviol
          rw [if_pos h2] at h
          simp at h
        · rw [if_neg h1] at h
          rw [if_neg (by omega : ¬ o + 0 < file.length)] at hviol
          have h2 : flash (start + o) ≠ 0xFF := by
            simpa using hviol
          rw [if_pos h2] at h
          simp at h
      | j + 1 =>
        have hrec : verify_scan flash file start (o + 1) n = .ok := by
          by_cases h1 : o < file.length
          · rw [if_pos h1] at h
            by_cases h2 : flash (start + o) ≠ file.getD o 0
            · rw [if_pos h2] at h
              simp at h
            · rwa [if_neg h2] at h
          · rw [if_neg h1] at h
            by_cases h2 : flash (start + o) ≠ 0xFF
            · rw [if_pos h2] at h
              simp at h
            · rwa [if_neg h2] at h
        have := (ih (o + 1)).1 hrec j (by omega)
        intro hviol
        apply this
        have harith : o + 1 + j = o + (j + 1) := by omega
        rwa [harith]
    · intro h
      have h0 : ¬ scanViol flash file start (o + 0) := h 0 (by omega)
      have hrec : verify_scan flash file start (o + 1) n = .ok := by
        refine (ih (o + 1)).2 ?_
        intro j hj
        have harith : o + 1 + j = o + (j + 1) := by omega
        rw [harith]
        exact h (j + 1) (by omega)
      unfold scanViol at h0
      by_cases h1 : o < file.length
      · rw [if_pos h1]
        rw [if_pos (by omega : o + 0 < file.length)] at h0
        have h2 : ¬ flash (start + o) ≠ file.getD o 0 := by
          simpa using h0
        rw [if_neg h2]
        exact hrec
      · rw [if_neg h1]
        rw [if_neg (by omega : ¬ o + 0 < file.length)] at h0
        have h2 : ¬ flash (start + o) ≠ 0xFF := by
          simpa using h0
        rw [if_neg h2]
        exact hrec

theorem verify_scan_first (flash : Nat → Nat) (file : List Nat) (start : Nat) :
    ∀ (n o k : Nat), k < n → scanViol flash file start (o + k) →
      (∀ j < k, ¬ scanViol flash file start (o + j)) →
      verify_scan flash file start o n =
        (if o + k < file.length then
          VerifyResult.mismatch (start + (o + k)) (flash (start + (o + k))) (file.getD (o + k) 0)
        else VerifyResult.notBlank (start + (o + k)) (flash (start + (o + k)))) := by
  intro n
  induction n with
  | zero =>
    intro o k hk
    omega
  | succ n ih =>
    intro o k hk hviol hmin
    show (if o < file.length then
        if flash (start + o) ≠ file.getD o 0 then
          VerifyResult.mismatch (start + o) (flash (start + o)) (file.getD o 0)
        else verify_scan flash file start (o + 1) n
      else if flash (start + o) ≠ 0xFF then
        VerifyResult.notBlank (start + o) (flash (start + o))
      else verify_scan flash file start (o + 1) n) = _
    match k with
    | 0 =>
      unfold scanViol at hviol
      by_cases h1 : o < file.length
      · rw [if_pos (by omega : o + 0 < file.length)] at hviol ⊢
        rw [if_pos h1]
        have h2 : flash (start + o) ≠ file.getD o 0 := by
          have harith : o + 0 = o := by omega
          rwa [harith] at hviol
        rw [if_pos h2]
        have harith : o + 0 = o := by omega
        rw [harith]
      · rw [if_neg (by omega : ¬ o + 0 < file.length)] at hviol ⊢
        rw [if_neg h1]
        have h2 : flash (start + o) ≠ 0xFF := by
          have harith : o + 0 = o := by omega
          rwa [harith] at hviol
        rw [if_pos h2]
        have harith : o + 0 = o := by omega
        rw [harith]
    | k + 1 =>
      have h0 : ¬ scanViol flash file start (o + 0) := hmin 0 (by omega)
      have hstep : ∀ r, verify_scan flash file start (o + 1) n = r →
          (if o < file.length then
            if flash (start + o) ≠ file.getD o 0 then
              VerifyResult.mismatch (start + o) (flash (start + o)) (file.getD o 0)
            else verify_scan flash file start (o + 1) n
          else if flash (start + o) ≠ 0xFF then
            VerifyResult.notBlank (start + o) (flash (start + o))
          else verify_scan flash file start (o + 1) n) = r := by
        intro r hr
        unfold scanViol at h0
        by_cases h1 : o < file.length
        · rw [if_pos (by omega : o + 0 < file.length)] at h0
          have h2 : ¬ flash (start + o) ≠ file.getD o 0 := by
            have harith : o + 0 = o := by omega
            rwa [harith] at h0
          rw [if_pos h1, if_neg h2]
          exact hr
        · rw [if_neg (by omega : ¬ o + 0 < file.length)] at h0
          have h2 : ¬ flash (start + o) ≠ 0xFF := by
            have harith : o + 0 = o := by omega
            rwa [harith] at h0
          rw [if_neg h1, if_neg h2]
          exact hr
      have harith : o + 1 + k = o + (k + 1) := by omega
      refine hstep _ ?_
      have := ih (o + 1) k (by omega) (by rwa [harith]) ?_
      · rwa [harith] at this
      · intro j hj
        have harith2 : o + 1 + j = o + (j + 1) := by omega
        rw [harith2]
        exact hmin (j + 1) (by omega)

/-- C7 counterexample to the unconditional first-mismatch claim: for a
verify range of nearly the whole 32-bit address space (`N = 2^32 - 1000`
bytes) the `uint32` chunk-count computation overflows to 0 chunks, so
`ra_verify` compares nothing and reports success even though the very
first byte differs from the file (flash `0x00` vs file `0x01`). -/
theorem c7_counterexample :
    ra_verify_cmp (fun _ => 0) [1] 0 (2 ^ 32 - 1001) = .ok ∧
    scanViol (fun _ => 0) [1] 0 0 ∧ 0 < 2 ^ 32 - 1001 - 0 + 1 := by
  refine ⟨rfl, by decide, by decide⟩

/-- C7 (amended): for every verify range `[start, e]` whose byte count
`N = e - start + 1` satisfies `N + 1023 < 2^32` (no `uint32` overflow in
the chunk count; true of every real device), the chunked comparison
succeeds iff every byte of the range agrees with the file while it lasts
and equals `0xFF` beyond it; and at the least violating offset `k` it
stops and reports the absolute address together with the flash byte and
the file byte (or the flash byte alone when `k` lies beyond the file's
end, where `0xFF` was expected). -/
theorem c7_verify_first_mismatch (flash : Nat → Nat) (file : List Nat) (start e : Nat)
    (hle : start ≤ e) (hcap : e - start + 1 + (CHUNK_SIZE - 1) < U32) :
    (ra_verify_cmp flash file start e = .ok ↔
      ∀ k < e - start + 1, ¬ scanViol flash file start k) ∧
    (∀ k, k < e - start + 1 → scanViol flash file start k →
      (∀ j < k, ¬ scanViol flash file start j) →
      ra_verify_cmp flash file start e =
        (if k < file.length then
          VerifyResult.mismatch (start + k) (flash (start + k)) (file.getD k 0)
        else VerifyResult.notBlank (start + k) (flash (start + k)))) := by
  have heq : ra_verify_cmp flash file start e =
      verify_scan flash file start 0 (e - start + 1) := by
    unfold ra_verify_cmp
    rw [Nat.mod_eq_of_lt hcap]
    have h1 : start = start + 0 := by omega
    have h2 : (0 : Nat) = min file.length 0 := by simp
    rw [h1, h2]
    have := verify_loop_eq_scan flash file start e (e - start + 1) (by omega)
      ((e - start + 1 - 0 + (CHUNK_SIZE - 1)) / CHUNK_SIZE) 0 (by omega) rfl
    simpa using this
  rw [heq]
  constructor
  · rw [verify_scan_ok_iff]
    constructor
    · intro h k hk
      have := h k hk
      simpa using this
    · intro h j hj
      have := h j hj
      simpa using this
  · intro k hk hviol hmin
    have := verify_scan_first flash file start (e - start + 1) 0 k hk
      (by simpa using hviol) (fun j hj => by simpa using hmin j hj)
    simpa using this

/-- C7 witness: the amended claim at three concrete runs — a mismatch
inside the file (flash `0x01` vs file `0xAA` at address 2), a non-`0xFF`
byte beyond the file's end (address 6), and a fully matching range. -/
theorem c7_verify_witness :
    ra_verify_cmp (fun a => if a = 2 then 1 else 0xAA) [0xAA, 0xAA, 0xAA, 0xAA] 0 3 =
      (if 2 < ([0xAA, 0xAA, 0xAA, 0xAA] : List Nat).length then
        VerifyResult.mismatch (0 + 2) ((fun a => if a = 2 then 1 else 0xAA) (0 + 2))
          (([0xAA, 0xAA, 0xAA, 0xAA] : List Nat).getD 2 0)
      else VerifyResult.notBlank (0 + 2) ((fun a => if a = 2 then 1 else 0xAA) (0 + 2))) ∧
    ra_verify_cmp (fun a => if a = 6 then 0 else 0xFF) [0xFF, 0xFF, 0xFF, 0xFF] 0 7 =
      (if 6 < ([0xFF, 0xFF, 0xFF, 0xFF] : List Nat).length then
        VerifyResult.mismatch (0 + 6) ((fun a => if a = 6 then 0 else 0xFF) (0 + 6))
          (([0xFF, 0xFF, 0xFF, 0xFF] : List Nat).getD 6 0)
      else VerifyResult.notBlank (0 + 6) ((fun a => if a = 6 then 0 else 0xFF) (0 + 6))) ∧
    ra_verify_cmp (fun _ => 0xFF) [] 0 3 = .ok :=
  ⟨(c7_verify_first_mismatch (fun a => if a = 2 then 1 else 0xAA) [0xAA, 0xAA, 0xAA, 0xAA]
      0 3 (by decide) (by decide)).2 2 (by decide) (by decide) (by decide),
    (c7_verify_first_mismatch (fun a => if a = 6 then 0 else 0xFF) [0xFF, 0xFF, 0xFF, 0xFF]
      0 7 (by decide) (by decide)).2 6 (by decide) (by decide) (by decide),
    (c7_verify_first_mismatch (fun _ => 0xFF) [] 0 3 (by decide) (by decide)).1.mpr
      (by decide)⟩

end Radfu
